import Mathlib

/-!
Verification of the pocketgrad scalar autograd engine (`engine.py`).

The engine is a single Python class `Tensor`: a scalar value (`data`), an
accumulated gradient (`grad`), a set of dependency references
(`_dependencies`), a diagnostic operator tag (`_op`) and a per-node backward
closure (`_backward`).  Arithmetic dunder methods build a DAG of such nodes;
`Tensor.backward` computes a depth-first post-order of the reachable nodes,
seeds the terminal's grad with 1.0 and runs every closure in reverse order.

Shallow embedding used here: nodes live in an arena (a `List Node`), a node
is referred to by its index, and the per-node closure is represented by a
tagged rule (the closure of each operator only ever captures its operand
objects and, for `pow`, the constant exponent).  Python object references
become arena indices; the construction discipline of the engine (a node is
created strictly after its operands) makes every dependency index smaller
than the node's own index, which is the `DepLT` hypothesis used by the
graph theorems.  Scalars are modelled by `ℚ`: the engine's arithmetic on
Python floats is exact-rational except for rounding, and every claim checked
numerically is stated with the spec's own 6-decimal-place tolerance.
Python's `ZeroDivisionError` on `0.0 ** n` for negative `n` is modelled by an
explicit error result, as is the `TypeError` each operator raises on an
operand that is neither a number nor a `Tensor` (the spec's `InvalidOperand`).
-/

/-- Errors the engine can raise while building a graph or running backward:
`typeError` is the `TypeError` of the operand `isinstance` checks (the
spec's `InvalidOperand`), `zeroDivisionError` is Python's error for raising
zero to a negative power, and `nonIntegerExponent` marks the only part of
the source outside this rational model: a fractional float exponent, whose
Python result is irrational or complex.  No claim depends on it. -/
inductive Err where
  | typeError
  | zeroDivisionError
  | nonIntegerExponent
deriving DecidableEq, Repr

/-- The backward closure attached to a node, as a tagged rule over arena
indices: `addR a b` is the closure of `__add__` (grad of `a` and of `b` each
receive `out.grad`), `mulR a b` that of `__mul__`, `powR a n` that of
`__pow__` with constant exponent `n`, and `noop` the `lambda: None` of a
leaf. -/
inductive BackRule where
  | noop
  | addR (a b : Nat)
  | mulR (a b : Nat)
  | powR (a : Nat) (n : ℤ)
deriving DecidableEq, Repr

/-- A `Tensor` object: `data` (generic so that the unvalidated constructor
can be stated for arbitrary Python values), `grad`, the deduplicated
dependency list (`_dependencies = set(_children)`), the diagnostic `_op`
tag, and the backward rule. -/
structure NodeG (α : Type) where
  data : α
  grad : ℚ
  deps : List Nat
  op : String
  rule : BackRule
deriving DecidableEq, Repr

/-- A node of the main (numeric) model. -/
abbrev Node := NodeG ℚ

/-- Default node used by total arena lookups (never reached on indices the
engine actually creates). -/
def dNode : Node := { data := 0, grad := 0, deps := [], op := "", rule := .noop }

/-- The `data` field of node `i` of the arena. -/
def dataOf (A : List Node) (i : Nat) : ℚ := (A.getD i dNode).data

/-- The `grad` field of node `i` of the arena. -/
def gradOf (A : List Node) (i : Nat) : ℚ := (A.getD i dNode).grad

/-- The `_dependencies` of node `i` of the arena. -/
def depsOf (A : List Node) (i : Nat) : List Nat := (A.getD i dNode).deps

/-- The backward rule of node `i` of the arena. -/
def ruleOf (A : List Node) (i : Nat) : BackRule := (A.getD i dNode).rule

/-- Overwrite the `grad` field of node `i` (the `self.grad = 1.0` seed). -/
def writeGrad (A : List Node) (i : Nat) (v : ℚ) : List Node :=
  A.set i { A.getD i dNode with grad := v }

/-- Add `v` to the `grad` field of node `i` (one `+=` of a closure). -/
def bumpGrad (A : List Node) (i : Nat) (v : ℚ) : List Node :=
  writeGrad A i (gradOf A i + v)

/-- Generic `Tensor.__init__`: no validation of `data` whatsoever; `grad`
starts at `0.0`, `_dependencies = set(_children)` (deduplicated), `_backward`
is the no-op closure.  The operator methods overwrite the rule on the node
they return, which the numeric constructors below fuse into the creation. -/
def Tensor.initRaw {α : Type} (data : α) (children : List Nat := [])
    (op : String := "") : NodeG α :=
  { data := data, grad := 0, deps := children.dedup, op := op, rule := .noop }

/-- `Tensor(data)` on the numeric arena: appends a fresh leaf and returns
its index. -/
def Tensor.init (A : List Node) (v : ℚ) : List Node × Nat :=
  (A ++ [Tensor.initRaw v], A.length)

/-- An operand of an arithmetic dunder method: an existing node, a plain
numeric scalar, or any other Python object (rejected by the `isinstance`
checks); `invalid` carries only a description of the foreign value. -/
inductive PyOperand where
  | tensor (i : Nat)
  | num (q : ℚ)
  | invalid (desc : String)

/-- The node `__add__` appends once both operands are nodes. -/
def mkAddNode (A : List Node) (a b : Nat) : List Node × Nat :=
  (A ++ [{ data := dataOf A a + dataOf A b, grad := 0, deps := [a, b].dedup,
           op := "+", rule := .addR a b }], A.length)

/-- The node `__mul__` appends once both operands are nodes. -/
def mkMulNode (A : List Node) (a b : Nat) : List Node × Nat :=
  (A ++ [{ data := dataOf A a * dataOf A b, grad := 0, deps := [a, b].dedup,
           op := "*", rule := .mulR a b }], A.length)

/-- `Tensor.__add__`: `isinstance` check first (`TypeError` on a foreign
operand, before any node is created), scalar operands wrapped into a fresh
leaf, then the output node is appended. -/
def Tensor.add (A : List Node) (self : Nat) (other : PyOperand) :
    Except Err (List Node × Nat) :=
  match other with
  | .invalid _ => .error .typeError
  | .num q =>
      let (A1, o) := Tensor.init A q
      .ok (mkAddNode A1 self o)
  | .tensor o => .ok (mkAddNode A self o)

/-- `Tensor.__radd__`: its own `isinstance` check, then `self + other`. -/
def Tensor.radd (A : List Node) (self : Nat) (other : PyOperand) :
    Except Err (List Node × Nat) :=
  match other with
  | .invalid _ => .error .typeError
  | _ => Tensor.add A self other

/-- `Tensor.__mul__`: like `__add__` with the product rule. -/
def Tensor.mul (A : List Node) (self : Nat) (other : PyOperand) :
    Except Err (List Node × Nat) :=
  match other with
  | .invalid _ => .error .typeError
  | .num q =>
      let (A1, o) := Tensor.init A q
      .ok (mkMulNode A1 self o)
  | .tensor o => .ok (mkMulNode A self o)

/-- `Tensor.__rmul__`: its own `isinstance` check, then `self * other`. -/
def Tensor.rmul (A : List Node) (self : Nat) (other : PyOperand) :
    Except Err (List Node × Nat) :=
  match other with
  | .invalid _ => .error .typeError
  | _ => Tensor.mul A self other

/-- `Tensor.__pow__`: only a plain numeric exponent passes the `isinstance`
check (a node exponent is a `TypeError`); `0 ** n` with `n < 0` is Python's
`ZeroDivisionError`.  A fractional exponent leaves the rational model (see
`Err.nonIntegerExponent`). -/
def Tensor.pow (A : List Node) (self : Nat) (other : PyOperand) :
    Except Err (List Node × Nat) :=
  match other with
  | .tensor _ => .error .typeError
  | .invalid _ => .error .typeError
  | .num q =>
      if q.den = 1 then
        let n := q.num
        if dataOf A self = 0 ∧ n < 0 then .error .zeroDivisionError
        else .ok (A ++ [{ data := dataOf A self ^ n, grad := 0, deps := [self],
                          op := "**", rule := .powR self n }], A.length)
      else .error .nonIntegerExponent

/-- `Tensor.__neg__`: `self * -1` (appends the `-1` leaf and a mul node). -/
def Tensor.neg (A : List Node) (self : Nat) : Except Err (List Node × Nat) :=
  Tensor.mul A self (.num (-1))

/-- `Tensor.__sub__`: `isinstance` check, then `self + (-other)`; a scalar
operand is negated as a plain Python number before the addition. -/
def Tensor.sub (A : List Node) (self : Nat) (other : PyOperand) :
    Except Err (List Node × Nat) :=
  match other with
  | .invalid _ => .error .typeError
  | .num q => Tensor.add A self (.num (-q))
  | .tensor j => do
      let (A1, n) ← Tensor.neg A j
      Tensor.add A1 self (.tensor n)

/-- `Tensor.__rsub__`: `isinstance` check, then `other + (-self)`; a scalar
`other` reaches the sum through `__radd__` of the negated node. -/
def Tensor.rsub (A : List Node) (self : Nat) (other : PyOperand) :
    Except Err (List Node × Nat) :=
  match other with
  | .invalid _ => .error .typeError
  | .num q => do
      let (A1, n) ← Tensor.neg A self
      Tensor.radd A1 n (.num q)
  | .tensor j => do
      let (A1, n) ← Tensor.neg A self
      Tensor.add A1 j (.tensor n)

/-- `Tensor.__truediv__`: `isinstance` check, then `self * (other ** -1)`;
for a scalar divisor the reciprocal is computed by plain Python arithmetic
(raising `ZeroDivisionError` on zero), for a node divisor through
`Tensor.pow` with exponent `-1`. -/
def Tensor.truediv (A : List Node) (self : Nat) (other : PyOperand) :
    Except Err (List Node × Nat) :=
  match other with
  | .invalid _ => .error .typeError
  | .num q =>
      if q = 0 then .error .zeroDivisionError
      else Tensor.mul A self (.num q⁻¹)
  | .tensor j => do
      let (A1, p) ← Tensor.pow A j (.num (-1))
      Tensor.mul A1 self (.tensor p)

/-- `Tensor.__rtruediv__`: `isinstance` check, then `other * (self ** -1)`;
a scalar `other` reaches the product through `__rmul__` of the power node. -/
def Tensor.rtruediv (A : List Node) (self : Nat) (other : PyOperand) :
    Except Err (List Node × Nat) :=
  match other with
  | .invalid _ => .error .typeError
  | .num q => do
      let (A1, p) ← Tensor.pow A self (.num (-1))
      Tensor.rmul A1 p (.num q)
  | .tensor j => do
      let (A1, p) ← Tensor.pow A self (.num (-1))
      Tensor.mul A1 j (.tensor p)

/-- State of the `_build_topo` recursion: the identity-keyed visited set and
the accumulating post-order list. -/
structure TopoSt where
  visited : List Nat
  topo : List Nat

/-- `_build_topo`: mark the node visited, recurse into each not-yet-visited
dependency, then append the node.  The fuel argument only serves
termination; on arenas whose dependencies point strictly downwards
(`DepLT`, the invariant of the engine's construction order) a call with
fuel `i + 1` never exhausts it, since every child has a strictly smaller
index. -/
def visitAux (A : List Node) : Nat → Nat → TopoSt → TopoSt
  | 0, _, st => st
  | fuel + 1, i, st =>
      if i ∈ st.visited then st
      else
        let st1 : TopoSt := ⟨i :: st.visited, st.topo⟩
        let st2 := (depsOf A i).foldl (fun s j => visitAux A fuel j s) st1
        ⟨st2.visited, st2.topo ++ [i]⟩

/-- The topological (post-) order `backward` builds from terminal `t`. -/
def buildTopo (A : List Node) (t : Nat) : List Nat :=
  (visitAux A (t + 1) t ⟨[], []⟩).topo

/-- Run the backward closure of node `i` (Python executes the two `+=`
statements of a binary rule sequentially, re-reading `out.grad` between
them).  The `powR` closure evaluates `self.data ** (other - 1)`, which is
Python's `ZeroDivisionError` when the base is zero and `other - 1 < 0`. -/
def applyRule (A : List Node) (i : Nat) : Except Err (List Node) :=
  match ruleOf A i with
  | .noop => .ok A
  | .addR a b =>
      let A1 := bumpGrad A a (gradOf A i)
      .ok (bumpGrad A1 b (gradOf A1 i))
  | .mulR a b =>
      let A1 := bumpGrad A a (dataOf A b * gradOf A i)
      .ok (bumpGrad A1 b (dataOf A1 a * gradOf A1 i))
  | .powR a n =>
      if dataOf A a = 0 ∧ n - 1 < 0 then .error .zeroDivisionError
      else .ok (bumpGrad A a ((n : ℚ) * dataOf A a ^ (n - 1) * gradOf A i))

/-- `Tensor.backward`: build the post-order from the terminal, seed the
terminal's grad with `1.0` by plain assignment, then run every node's
closure in reverse order. -/
def backward (A : List Node) (t : Nat) : Except Err (List Node) :=
  let topo := buildTopo A t
  (topo.reverse).foldlM (fun B i => applyRule B i) (writeGrad A t 1)

/-- Index set a backward rule writes to (used by the frame lemmas). -/
def ruleWrites : BackRule → List Nat
  | .noop => []
  | .addR a b => [a, b]
  | .mulR a b => [a, b]
  | .powR a _ => [a]

/-- The construction-order invariant of the engine: every dependency of a
node has a strictly smaller arena index (operands exist before the node the
operator creates from them). -/
def DepLT (A : List Node) : Prop :=
  ∀ i, i < A.length → ∀ j ∈ (A.getD i dNode).deps, j < i

/-- Nodes whose backward closure only writes the grads of their recorded
dependencies (true of every node an operator creates). -/
def RulesWithinDeps (A : List Node) : Prop :=
  ∀ i, i < A.length → ∀ j ∈ ruleWrites (A.getD i dNode).rule, j ∈ (A.getD i dNode).deps

instance (A : List Node) : Decidable (DepLT A) :=
  decidable_of_iff (∀ i, i < A.length → ∀ j ∈ (A.getD i dNode).deps, j < i) Iff.rfl

instance (A : List Node) : Decidable (RulesWithinDeps A) :=
  decidable_of_iff
    (∀ i, i < A.length → ∀ j ∈ ruleWrites (A.getD i dNode).rule, j ∈ (A.getD i dNode).deps)
    Iff.rfl

/-- Reachability along dependencies (the set `_build_topo` must visit). -/
inductive Reaches (A : List Node) : Nat → Nat → Prop
  | refl (i : Nat) : Reaches A i i
  | step {i j k : Nat} : Reaches A i j → k ∈ depsOf A j → Reaches A i k

/-- Truth of `x` printed to 6 decimal places reads `y`: the spec reports all
scenario numbers `to 6 decimal places`, i.e. within half a unit in the sixth
decimal. -/
def approx6 (x y : ℚ) : Prop := y - 1 / 2000000 < x ∧ x < y + 1 / 2000000

/-- Whether an engine step succeeded. -/
def okB {σ : Type} : Except Err σ → Bool
  | .ok _ => true
  | .error _ => false

/-- The demonstration scenario of `test.py`: leaves `a = 0.3`, `b = -1.7`,
`c = 5.2`, then `d = a * b / c`, `e = d ** 2`, `f = e + 1`; returns the
arena and the indices of `a`, `b`, `c`, `d`, `e`, `f`. -/
def testGraph : Except Err (List Node × Nat × Nat × Nat × Nat × Nat × Nat) := do
  let (arr, a) := Tensor.init [] (3 / 10)
  let (arr, b) := Tensor.init arr (-17 / 10)
  let (arr, c) := Tensor.init arr (26 / 5)
  let (arr, ab) ← Tensor.mul arr a (.tensor b)
  let (arr, d) ← Tensor.truediv arr ab (.tensor c)
  let (arr, e) ← Tensor.pow arr d (.num 2)
  let (arr, f) ← Tensor.add arr e (.num 1)
  pure (arr, a, b, c, d, e, f)

/-- The arena `testGraph` builds: `a, b, c`, the product node `a*b`, the
reciprocal power node `c ** -1`, the quotient node `d`, the square node `e`,
the coerced leaf for the scalar `1`, and the sum node `f`. -/
def testA : List Node :=
  [ { data := 3 / 10, grad := 0, deps := [], op := "", rule := .noop },
    { data := -17 / 10, grad := 0, deps := [], op := "", rule := .noop },
    { data := 26 / 5, grad := 0, deps := [], op := "", rule := .noop },
    { data := -51 / 100, grad := 0, deps := [0, 1], op := "*", rule := .mulR 0 1 },
    { data := 5 / 26, grad := 0, deps := [2], op := "**", rule := .powR 2 (-1) },
    { data := -51 / 520, grad := 0, deps := [3, 4], op := "*", rule := .mulR 3 4 },
    { data := 2601 / 270400, grad := 0, deps := [5], op := "**", rule := .powR 5 2 },
    { data := 1, grad := 0, deps := [], op := "", rule := .noop },
    { data := 273001 / 270400, grad := 0, deps := [6, 7], op := "+", rule := .addR 6 7 } ]

/-- The arena after `f.backward()`: same nodes, gradients accumulated. -/
def testB : List Node :=
  [ { data := 3 / 10, grad := 867 / 13520, deps := [], op := "", rule := .noop },
    { data := -17 / 10, grad := -153 / 13520, deps := [], op := "", rule := .noop },
    { data := 26 / 5, grad := -2601 / 703040, deps := [], op := "", rule := .noop },
    { data := -51 / 100, grad := -51 / 1352, deps := [0, 1], op := "*", rule := .mulR 0 1 },
    { data := 5 / 26, grad := 2601 / 26000, deps := [2], op := "**", rule := .powR 2 (-1) },
    { data := -51 / 520, grad := -51 / 260, deps := [3, 4], op := "*", rule := .mulR 3 4 },
    { data := 2601 / 270400, grad := 1, deps := [5], op := "**", rule := .powR 5 2 },
    { data := 1, grad := 1, deps := [], op := "", rule := .noop },
    { data := 273001 / 270400, grad := 1, deps := [6, 7], op := "+", rule := .addR 6 7 } ]

/-- The diamond of the spec's single-run property: `y = x + x` (one leaf,
used as both operands of a single addition). -/
def yxGraph : Except Err (List Node × Nat × Nat) := do
  let (arr, x) := Tensor.init [] 3
  let (arr, y) ← Tensor.add arr x (.tensor x)
  pure (arr, x, y)

/-- The arena `yxGraph` builds: the leaf and the sum node, whose
dependency set contains the leaf once. -/
def yxA : List Node :=
  [ { data := 3, grad := 0, deps := [], op := "", rule := .noop },
    { data := 6, grad := 0, deps := [0], op := "+", rule := .addR 0 0 } ]

/-- The same arena after `y.backward()`: both uses of `x` contributed. -/
def yxB : List Node :=
  [ { data := 3, grad := 2, deps := [], op := "", rule := .noop },
    { data := 6, grad := 1, deps := [0], op := "+", rule := .addR 0 0 } ]

/-- The `yxB` arena after a further `x.backward()`: the leaf's grad is
overwritten by the seed, from `2` back to `1`. -/
def yxC : List Node :=
  [ { data := 3, grad := 1, deps := [], op := "", rule := .noop },
    { data := 6, grad := 1, deps := [0], op := "+", rule := .addR 0 0 } ]

/-- The depth-two diamond `x; y = x + x; z = y + y`, the graph on which a
second `backward` call does not merely double the leaf's gradient. -/
def dblGraph : Except Err (List Node × Nat × Nat) := do
  let (arr, x) := Tensor.init [] 1
  let (arr, y) ← Tensor.add arr x (.tensor x)
  let (arr, z) ← Tensor.add arr y (.tensor y)
  pure (arr, x, z)

/-- The arena `dblGraph` builds. -/
def dblA : List Node :=
  [ { data := 1, grad := 0, deps := [], op := "", rule := .noop },
    { data := 2, grad := 0, deps := [0], op := "+", rule := .addR 0 0 },
    { data := 4, grad := 0, deps := [1], op := "+", rule := .addR 1 1 } ]

/-- After one `z.backward()`: `y.grad = 2`, `x.grad = 4`. -/
def dblB : List Node :=
  [ { data := 1, grad := 4, deps := [], op := "", rule := .noop },
    { data := 2, grad := 2, deps := [0], op := "+", rule := .addR 0 0 },
    { data := 4, grad := 1, deps := [1], op := "+", rule := .addR 1 1 } ]

/-- After a second `z.backward()` without resetting: the stale `y.grad`
compounds, so `x.grad` becomes `12`, not `8`. -/
def dblC : List Node :=
  [ { data := 1, grad := 12, deps := [], op := "", rule := .noop },
    { data := 2, grad := 4, deps := [0], op := "+", rule := .addR 0 0 },
    { data := 4, grad := 1, deps := [1], op := "+", rule := .addR 1 1 } ]

/-- Two leaves, the second with forward value exactly zero. -/
def zeroDivA : List Node :=
  [ { data := 1, grad := 0, deps := [], op := "", rule := .noop },
    { data := 0, grad := 0, deps := [], op := "", rule := .noop } ]

/-- Expressions over leaf values, built purely from the engine's operators
(`pow` has the constant integer exponent the engine differentiates). -/
inductive Expr where
  | leaf (v : ℚ)
  | add (a b : Expr)
  | mul (a b : Expr)
  | neg (a : Expr)
  | sub (a b : Expr)
  | pow (a : Expr) (n : ℤ)
  | div (a b : Expr)

/-- Plain scalar evaluation of an expression, with Python's arithmetic
errors: raising `0` to a negative power and dividing by `0` both raise
`ZeroDivisionError`. -/
def evalE : Expr → Except Err ℚ
  | .leaf v => .ok v
  | .add a b => do
      let va ← evalE a
      let vb ← evalE b
      pure (va + vb)
  | .mul a b => do
      let va ← evalE a
      let vb ← evalE b
      pure (va * vb)
  | .neg a => do
      let va ← evalE a
      pure (-va)
  | .sub a b => do
      let va ← evalE a
      let vb ← evalE b
      pure (va - vb)
  | .pow a n => do
      let va ← evalE a
      if va = 0 ∧ n < 0 then .error .zeroDivisionError else pure (va ^ n)
  | .div a b => do
      let va ← evalE a
      let vb ← evalE b
      if vb = 0 then .error .zeroDivisionError else pure (va / vb)

/-- Build the same expression through the engine: every operator call goes
through the `Tensor` methods above, subexpressions first, left before
right. -/
def buildE : Expr → List Node → Except Err (List Node × Nat)
  | .leaf v, A => .ok (Tensor.init A v)
  | .add a b, A => do
      let (A1, i) ← buildE a A
      let (A2, j) ← buildE b A1
      Tensor.add A2 i (.tensor j)
  | .mul a b, A => do
      let (A1, i) ← buildE a A
      let (A2, j) ← buildE b A1
      Tensor.mul A2 i (.tensor j)
  | .neg a, A => do
      let (A1, i) ← buildE a A
      Tensor.neg A1 i
  | .sub a b, A => do
      let (A1, i) ← buildE a A
      let (A2, j) ← buildE b A1
      Tensor.sub A2 i (.tensor j)
  | .pow a n, A => do
      let (A1, i) ← buildE a A
      Tensor.pow A1 i (.num (n : ℚ))
  | .div a b, A => do
      let (A1, i) ← buildE a A
      let (A2, j) ← buildE b A1
      Tensor.truediv A2 i (.tensor j)

/-- Forward value of an operator result (the `data` of the node it
returns). -/
def dataRes (r : Except Err (List Node × Nat)) : Except Err ℚ :=
  r.map fun p => dataOf p.1 p.2

/-- Frame property of one operator call: when it succeeds, every node that
already existed is untouched (all fields, in particular `data` and `grad`)
and the returned index points at a newly created node. -/
def opFrame (A : List Node) : Except Err (List Node × Nat) → Prop
  | .error _ => True
  | .ok (B, k) =>
      (∀ j, j < A.length → B.getD j dNode = A.getD j dNode) ∧
      A.length ≤ k ∧ k < B.length

/-- The backward closure of node `i` runs without Python errors (only the
`pow` closure can raise, on a zero base with exponent below one). -/
def RuleSafe (A : List Node) (i : Nat) : Prop :=
  match ruleOf A i with
  | .powR a n => ¬(dataOf A a = 0 ∧ n - 1 < 0)
  | _ => True

/-- Grad of node `j` after `backward` from terminal `t` (`none` when the
run raised). -/
def gradAfter (A : List Node) (t j : Nat) : Option ℚ :=
  (backward A t).toOption.map fun B => gradOf B j

/-- Data of node `j` after `backward` from terminal `t`. -/
def dataAfter (A : List Node) (t j : Nat) : Option ℚ :=
  (backward A t).toOption.map fun B => dataOf B j

/-- Grad of node `j` after two consecutive `backward` calls from `t`
without any reset in between. -/
def gradAfter2 (A : List Node) (t j : Nat) : Option ℚ :=
  ((backward A t).bind fun B => backward B t).toOption.map fun B => gradOf B j

/-- The expression `k * x ** (-1)`, the node-first form the spec equates
with `k / x` (Python evaluates the power first, then dispatches the scalar
product to `__rmul__`). -/
def scalarMulPow (A : List Node) (x : Nat) (k : ℚ) : Except Err (List Node × Nat) := do
  let (A1, p) ← Tensor.pow A x (.num (-1))
  Tensor.rmul A1 p (.num k)

/-- The expression `(-x) + k`, the node-first form the spec equates with
`k - x`. -/
def negThenAdd (A : List Node) (x : Nat) (k : ℚ) : Except Err (List Node × Nat) := do
  let (A1, n) ← Tensor.neg A x
  Tensor.add A1 n (.num k)

/-- Python values a `data` field can hold in the fragment used to check the
unvalidated constructor: numbers, and strings standing in for arbitrary
non-numeric objects. -/
inductive PyData where
  | num (q : ℚ)
  | str (s : String)
deriving DecidableEq

/-- Default node for lookups in the dynamic-data fragment. -/
def dPD : NodeG PyData :=
  { data := .num 0, grad := 0, deps := [], op := "", rule := .noop }

/-- Python's built-in `+` on such values: numbers add, strings concatenate,
and a mixed pair raises `TypeError`. -/
def pyAdd : PyData → PyData → Except Err PyData
  | .num a, .num b => .ok (.num (a + b))
  | .str a, .str b => .ok (.str (a ++ b))
  | _, _ => .error .typeError

/-- `__add__` on two nodes whose `data` fields hold arbitrary Python
values: both operands are tensors, so the `isinstance` check passes, and a
non-numeric `data` surfaces exactly at the forward computation
`self.data + other.data`. -/
def Tensor.addPD (A : List (NodeG PyData)) (self other : Nat) :
    Except Err (List (NodeG PyData) × Nat) := do
  let v ← pyAdd (A.getD self dPD).data (A.getD other dPD).data
  .ok (A ++ [{ data := v, grad := 0, deps := [self, other].dedup, op := "+",
               rule := .addR self other }], A.length)


/-- Contribution the terminal's rule pushes into the grad of cell `j` when
the terminal's own grad is `1.0` (what one run of its closure adds, used to
state the depth-one double-backward theorem). -/
def ruleInc (A : List Node) (t : Nat) : Nat → ℚ := fun j =>
  match ruleOf A t with
  | .noop => 0
  | .addR a b => (if j = a then 1 else 0) + (if j = b then 1 else 0)
  | .mulR a b => (if j = a then dataOf A b else 0) + (if j = b then dataOf A a else 0)
  | .powR a n => if j = a then (n : ℚ) * dataOf A a ^ (n - 1) else 0

/-! Concrete executions. -/

lemma testGraph_eq : testGraph = .ok (testA, 0, 1, 2, 5, 6, 8) := by
  norm_num [testGraph, testA, Tensor.init, Tensor.initRaw, Tensor.mul, Tensor.truediv,
    Tensor.pow, Tensor.add, mkMulNode, mkAddNode, dataOf, Bind.bind, Except.bind,
    pure, Except.pure, List.dedup]

lemma testTopo_eq : buildTopo testA 8 = [0, 1, 3, 2, 4, 5, 6, 7, 8] := by
  decide

lemma testBackward_eq : backward testA 8 = .ok testB := by
  rw [backward, testTopo_eq]
  norm_num [testA, testB, applyRule, ruleOf, dataOf, gradOf, bumpGrad, writeGrad,
    List.foldlM, List.getD, Bind.bind, Except.bind, pure, Except.pure, zpow_neg]

lemma yxGraph_eq : yxGraph = .ok (yxA, 0, 1) := by
  norm_num [yxGraph, yxA, Tensor.init, Tensor.initRaw, Tensor.add, mkAddNode,
    dataOf, Bind.bind, Except.bind, pure, Except.pure, List.dedup]

lemma yxBackward_eq : backward yxA 1 = .ok yxB := by
  show (buildTopo yxA 1).reverse.foldlM (fun B i => applyRule B i) (writeGrad yxA 1 1) = .ok yxB
  have ht : buildTopo yxA 1 = [0, 1] := by decide
  rw [ht]
  norm_num [yxA, yxB, applyRule, ruleOf, dataOf, gradOf, bumpGrad, writeGrad,
    List.foldlM, List.getD, Bind.bind, Except.bind, pure, Except.pure]

lemma yxBackward2_eq : backward yxB 0 = .ok yxC := by
  show (buildTopo yxB 0).reverse.foldlM (fun B i => applyRule B i) (writeGrad yxB 0 1) = .ok yxC
  have ht : buildTopo yxB 0 = [0] := by decide
  rw [ht]
  norm_num [yxB, yxC, applyRule, ruleOf, gradOf, writeGrad,
    List.foldlM, List.getD, Bind.bind, Except.bind, pure, Except.pure]

lemma dblGraph_eq : dblGraph = .ok (dblA, 0, 2) := by
  norm_num [dblGraph, dblA, Tensor.init, Tensor.initRaw, Tensor.add, mkAddNode,
    dataOf, Bind.bind, Except.bind, pure, Except.pure, List.dedup]

lemma dblBackward_eq : backward dblA 2 = .ok dblB := by
  show (buildTopo dblA 2).reverse.foldlM (fun B i => applyRule B i) (writeGrad dblA 2 1) = .ok dblB
  have ht : buildTopo dblA 2 = [0, 1, 2] := by decide
  rw [ht]
  norm_num [dblA, dblB, applyRule, ruleOf, dataOf, gradOf, bumpGrad, writeGrad,
    List.foldlM, List.getD, Bind.bind, Except.bind, pure, Except.pure]

lemma dblBackward2_eq : backward dblB 2 = .ok dblC := by
  show (buildTopo dblB 2).reverse.foldlM (fun B i => applyRule B i) (writeGrad dblB 2 1) = .ok dblC
  have ht : buildTopo dblB 2 = [0, 1, 2] := by decide
  rw [ht]
  norm_num [dblB, dblC, applyRule, ruleOf, dataOf, gradOf, bumpGrad, writeGrad,
    List.foldlM, List.getD, Bind.bind, Except.bind, pure, Except.pure]

/-! Basic arena lemmas. -/

lemma set_oob {α : Type} : ∀ (l : List α) (i : Nat) (x : α), l.length ≤ i → l.set i x = l := by
  intro l
  induction l with
  | nil => intro i x _; rfl
  | cons a t ih =>
      intro i x h
      cases i with
      | zero => simp at h
      | succ i => simpa using ih i x (by simpa using h)

lemma getD_set_self {α : Type} :
    ∀ (l : List α) (i : Nat) (x d : α), i < l.length → (l.set i x).getD i d = x := by
  intro l
  induction l with
  | nil => intro i x d h; simp at h
  | cons a t ih =>
      intro i x d h
      cases i with
      | zero => rfl
      | succ i => simpa [List.getD] using ih i x d (by simpa using h)

lemma getD_set_ne {α : Type} :
    ∀ (l : List α) (i j : Nat) (x d : α), j ≠ i → (l.set i x).getD j d = l.getD j d := by
  intro l
  induction l with
  | nil => intro i j x d _; rfl
  | cons a t ih =>
      intro i j x d h
      cases i with
      | zero =>
          cases j with
          | zero => exact absurd rfl h
          | succ j => rfl
      | succ i =>
          cases j with
          | zero => rfl
          | succ j => simpa [List.getD] using ih i j x d (by omega)

lemma getD_append_lt {α : Type} :
    ∀ (l l' : List α) (i : Nat) (d : α), i < l.length → (l ++ l').getD i d = l.getD i d := by
  intro l
  induction l with
  | nil => intro l' i d h; simp at h
  | cons a t ih =>
      intro l' i d h
      cases i with
      | zero => rfl
      | succ i => simpa [List.getD] using ih l' i d (by simpa using h)

lemma getD_append_len {α : Type} :
    ∀ (l : List α) (x : α) (l' : List α) (d : α), (l ++ x :: l').getD l.length d = x := by
  intro l
  induction l with
  | nil => intro x l' d; rfl
  | cons a t ih => intro x l' d; simpa [List.getD] using ih x l' d

lemma getD_oob {α : Type} :
    ∀ (l : List α) (i : Nat) (d : α), l.length ≤ i → l.getD i d = d := by
  intro l
  induction l with
  | nil => intro i d _; rfl
  | cons a t ih =>
      intro i d h
      cases i with
      | zero => simp at h
      | succ i => simpa [List.getD] using ih i d (by simpa using h)

lemma depsOf_oob (A : List Node) (i : Nat) (h : A.length ≤ i) : depsOf A i = [] := by
  show (A.getD i dNode).deps = []
  rw [getD_oob _ _ _ h]
  rfl

lemma ruleOf_oob (A : List Node) (i : Nat) (h : A.length ≤ i) : ruleOf A i = .noop := by
  show (A.getD i dNode).rule = .noop
  rw [getD_oob _ _ _ h]
  rfl

lemma depLT_all {A : List Node} (hA : DepLT A) : ∀ i, ∀ j ∈ depsOf A i, j < i := by
  intro i j hj
  by_cases hi : i < A.length
  · exact hA i hi j hj
  · rw [depsOf_oob A i (le_of_not_lt hi)] at hj
    simp at hj

lemma ruleWrites_sub {A : List Node} (hr : RulesWithinDeps A) :
    ∀ i, ∀ w ∈ ruleWrites (ruleOf A i), w ∈ depsOf A i := by
  intro i w hw
  by_cases hi : i < A.length
  · exact hr i hi w hw
  · rw [ruleOf_oob A i (le_of_not_lt hi)] at hw
    simp [ruleWrites] at hw

/-! Properties of the depth-first post-order construction. -/

lemma reaches_trans {A : List Node} {i j k : Nat}
    (h1 : Reaches A i j) (h2 : Reaches A j k) : Reaches A i k := by
  induction h2 with
  | refl => exact h1
  | step _ hd ih => exact Reaches.step ih hd

lemma reaches_le {A : List Node} (hA : DepLT A) {t j : Nat} (h : Reaches A t j) : j ≤ t := by
  induction h with
  | refl => exact le_refl _
  | step _ hd ih => exact le_of_lt (lt_of_lt_of_le (depLT_all hA _ _ hd) ih)

lemma visitAux_succ_mem {A : List Node} {fuel i : Nat} {st : TopoSt} (h : i ∈ st.visited) :
    visitAux A (fuel + 1) i st = st := by
  simp [visitAux, h]

lemma visitAux_succ_not_mem {A : List Node} {fuel i : Nat} {st : TopoSt} (h : i ∉ st.visited) :
    visitAux A (fuel + 1) i st =
      ⟨((depsOf A i).foldl (fun s j => visitAux A fuel j s) ⟨i :: st.visited, st.topo⟩).visited,
       ((depsOf A i).foldl (fun s j => visitAux A fuel j s) ⟨i :: st.visited, st.topo⟩).topo
         ++ [i]⟩ := by
  simp [visitAux, h]

lemma visit_visited_mono (A : List Node) :
    ∀ fuel i st, ∀ x ∈ st.visited, x ∈ (visitAux A fuel i st).visited := by
  intro fuel
  induction fuel with
  | zero => intro i st x hx; exact hx
  | succ fuel ih =>
      intro i st x hx
      by_cases hi : i ∈ st.visited
      · rw [visitAux_succ_mem hi]; exact hx
      · rw [visitAux_succ_not_mem hi]
        have hgen : ∀ (l : List Nat) (st' : TopoSt), x ∈ st'.visited →
            x ∈ (l.foldl (fun s j => visitAux A fuel j s) st').visited := by
          intro l
          induction l with
          | nil => intro st' h; exact h
          | cons j rest ihl => intro st' h; exact ihl _ (ih j st' x h)
        exact hgen _ _ (List.mem_cons_of_mem _ hx)

lemma visit_topo_mono (A : List Node) :
    ∀ fuel i st, ∃ l, (visitAux A fuel i st).topo = st.topo ++ l := by
  intro fuel
  induction fuel with
  | zero => intro i st; exact ⟨[], by simp [visitAux]⟩
  | succ fuel ih =>
      intro i st
      by_cases hi : i ∈ st.visited
      · rw [visitAux_succ_mem hi]; exact ⟨[], by simp⟩
      · rw [visitAux_succ_not_mem hi]
        have hgen : ∀ (l : List Nat) (st' : TopoSt), ∃ l2,
            (l.foldl (fun s j => visitAux A fuel j s) st').topo = st'.topo ++ l2 := by
          intro l
          induction l with
          | nil => intro st'; exact ⟨[], by simp⟩
          | cons j rest ihl =>
              intro st'
              obtain ⟨l1, h1⟩ := ih j st'
              obtain ⟨l2, h2⟩ := ihl (visitAux A fuel j st')
              exact ⟨l1 ++ l2, by rw [List.foldl_cons, h2, h1, List.append_assoc]⟩
        obtain ⟨l2, h2⟩ := hgen (depsOf A i) ⟨i :: st.visited, st.topo⟩
        exact ⟨l2 ++ [i], by simp [h2]⟩

lemma visit_topo_mem (A : List Node) (fuel i : Nat) (st : TopoSt) :
    ∀ x ∈ st.topo, x ∈ (visitAux A fuel i st).topo := by
  obtain ⟨l, hl⟩ := visit_topo_mono A fuel i st
  intro x hx
  rw [hl]
  exact List.mem_append_left _ hx

lemma fold_topo_mem (A : List Node) (fuel : Nat) :
    ∀ (l : List Nat) (st : TopoSt), ∀ x ∈ st.topo,
      x ∈ (l.foldl (fun s j => visitAux A fuel j s) st).topo := by
  intro l
  induction l with
  | nil => intro st x hx; exact hx
  | cons j rest ihl =>
      intro st x hx
      rw [List.foldl_cons]
      exact ihl _ _ (visit_topo_mem A fuel j st x hx)

lemma fold_visited_mono (A : List Node) (fuel : Nat) :
    ∀ (l : List Nat) (st : TopoSt), ∀ x ∈ st.visited,
      x ∈ (l.foldl (fun s j => visitAux A fuel j s) st).visited := by
  intro l
  induction l with
  | nil => intro st x hx; exact hx
  | cons j rest ihl =>
      intro st x hx
      rw [List.foldl_cons]
      exact ihl _ _ (visit_visited_mono A fuel j st x hx)

lemma visit_black (A : List Node) :
    ∀ fuel i st, ∀ x ∈ (visitAux A fuel i st).visited,
      x ∈ (visitAux A fuel i st).topo ∨ x ∈ st.visited := by
  intro fuel
  induction fuel with
  | zero => intro i st x hx; exact Or.inr hx
  | succ fuel ih =>
      intro i st x hx
      by_cases hi : i ∈ st.visited
      · rw [visitAux_succ_mem hi] at hx ⊢
        exact Or.inr hx
      · rw [visitAux_succ_not_mem hi] at hx ⊢
        have hgen : ∀ (l : List Nat) (st' : TopoSt),
            ∀ x ∈ (l.foldl (fun s j => visitAux A fuel j s) st').visited,
              x ∈ (l.foldl (fun s j => visitAux A fuel j s) st').topo ∨ x ∈ st'.visited := by
          intro l
          induction l with
          | nil => intro st' x hx; exact Or.inr hx
          | cons j rest ihl =>
              intro st' x hx
              rw [List.foldl_cons] at hx ⊢
              rcases ihl (visitAux A fuel j st') x hx with h | h
              · exact Or.inl h
              · rcases ih j st' x h with h2 | h2
                · exact Or.inl (fold_topo_mem A fuel rest _ x h2)
                · exact Or.inr h2
        rcases hgen (depsOf A i) ⟨i :: st.visited, st.topo⟩ x hx with h | h
        · exact Or.inl (List.mem_append_left _ h)
        · rcases List.mem_cons.mp h with h2 | h2
          · exact Or.inl (List.mem_append_right _ (by simp [h2]))
          · exact Or.inr h2

lemma visit_nodup (A : List Node) :
    ∀ fuel i st, st.topo.Nodup → (∀ x ∈ st.topo, x ∈ st.visited) →
      (((visitAux A fuel i st).topo.Nodup ∧
        (∀ x ∈ (visitAux A fuel i st).topo, x ∈ (visitAux A fuel i st).visited)) ∧
       (∀ x ∈ (visitAux A fuel i st).topo, x ∈ st.topo ∨ x ∉ st.visited)) := by
  intro fuel
  induction fuel with
  | zero => intro i st h1 h2; exact ⟨⟨h1, h2⟩, fun x hx => Or.inl hx⟩
  | succ fuel ih =>
      intro i st h1 h2
      by_cases hi : i ∈ st.visited
      · rw [visitAux_succ_mem hi]
        exact ⟨⟨h1, h2⟩, fun x hx => Or.inl hx⟩
      · rw [visitAux_succ_not_mem hi]
        have hgen : ∀ (l : List Nat) (st' : TopoSt), st'.topo.Nodup →
            (∀ x ∈ st'.topo, x ∈ st'.visited) →
            (((l.foldl (fun s j => visitAux A fuel j s) st').topo.Nodup ∧
              (∀ x ∈ (l.foldl (fun s j => visitAux A fuel j s) st').topo,
                x ∈ (l.foldl (fun s j => visitAux A fuel j s) st').visited)) ∧
             (∀ x ∈ (l.foldl (fun s j => visitAux A fuel j s) st').topo,
                x ∈ st'.topo ∨ x ∉ st'.visited)) := by
          intro l
          induction l with
          | nil => intro st' g1 g2; exact ⟨⟨g1, g2⟩, fun x hx => Or.inl hx⟩
          | cons j rest ihl =>
              intro st' g1 g2
              obtain ⟨⟨q1, q2⟩, f1⟩ := ih j st' g1 g2
              obtain ⟨⟨r1, r2⟩, f2⟩ := ihl (visitAux A fuel j st') q1 q2
              refine ⟨⟨by simpa using r1, by simpa using r2⟩, ?_⟩
              intro x hx
              rw [List.foldl_cons] at hx
              rcases f2 x hx with h | h
              · exact f1 x h
              · exact Or.inr fun hc => h (visit_visited_mono A fuel j st' x hc)
        have hst1 : (TopoSt.mk (i :: st.visited) st.topo).topo.Nodup := h1
        have hst2 : ∀ x ∈ (TopoSt.mk (i :: st.visited) st.topo).topo,
            x ∈ (TopoSt.mk (i :: st.visited) st.topo).visited := by
          intro x hx
          exact List.mem_cons_of_mem _ (h2 x hx)
        obtain ⟨⟨q1, q2⟩, f1⟩ := hgen (depsOf A i) ⟨i :: st.visited, st.topo⟩ hst1 hst2
        constructor
        · constructor
          · rw [List.nodup_append]
            refine ⟨q1, List.nodup_singleton i, ?_⟩
            intro a ha hb
            have hai : a = i := by simpa using hb
            subst hai
            rcases f1 a ha with h | h
            · exact hi (h2 a h)
            · exact h (List.mem_cons_self _ _)
          · intro x hx
            rcases List.mem_append.mp hx with h | h
            · exact q2 x h
            · have : x = i := by simpa using h
              subst this
              exact fold_visited_mono A fuel _ _ x (List.mem_cons_self _ _)
        · intro x hx
          rcases List.mem_append.mp hx with h | h
          · rcases f1 x h with h2 | h2
            · exact Or.inl h2
            · exact Or.inr fun hc => h2 (List.mem_cons_of_mem _ hc)
          · have : x = i := by simpa using h
            subst this
            exact Or.inr hi

lemma visit_reach (A : List Node) :
    ∀ fuel i st, ∀ x ∈ (visitAux A fuel i st).visited,
      x ∈ st.visited ∨ Reaches A i x := by
  intro fuel
  induction fuel with
  | zero => intro i st x hx; exact Or.inl hx
  | succ fuel ih =>
      intro i st x hx
      by_cases hi : i ∈ st.visited
      · rw [visitAux_succ_mem hi] at hx
        exact Or.inl hx
      · rw [visitAux_succ_not_mem hi] at hx
        have hgen : ∀ (l : List Nat) (st' : TopoSt),
            ∀ x ∈ (l.foldl (fun s j => visitAux A fuel j s) st').visited,
              x ∈ st'.visited ∨ ∃ j ∈ l, Reaches A j x := by
          intro l
          induction l with
          | nil => intro st' x hx; exact Or.inl hx
          | cons j rest ihl =>
              intro st' x hx
              rw [List.foldl_cons] at hx
              rcases ihl (visitAux A fuel j st') x hx with h | h
              · rcases ih j st' x h with h2 | h2
                · exact Or.inl h2
                · exact Or.inr ⟨j, List.mem_cons_self _ _, h2⟩
              · obtain ⟨j', hj', hr⟩ := h
                exact Or.inr ⟨j', List.mem_cons_of_mem _ hj', hr⟩
        rcases hgen (depsOf A i) ⟨i :: st.visited, st.topo⟩ x hx with h | h
        · rcases List.mem_cons.mp h with h2 | h2
          · subst h2
            exact Or.inr (Reaches.refl _)
          · exact Or.inl h2
        · obtain ⟨j, hj, hr⟩ := h
          exact Or.inr (reaches_trans (Reaches.step (Reaches.refl i) hj) hr)

lemma visit_self_mem (A : List Node) (fuel i : Nat) (st : TopoSt) (h : 0 < fuel) :
    i ∈ (visitAux A fuel i st).visited := by
  cases fuel with
  | zero => omega
  | succ fuel =>
      by_cases hi : i ∈ st.visited
      · rw [visitAux_succ_mem hi]; exact hi
      · rw [visitAux_succ_not_mem hi]
        exact fold_visited_mono A fuel _ _ i (List.mem_cons_self _ _)

lemma visit_closed (A : List Node) (hA : DepLT A) :
    ∀ fuel i st, i < fuel →
      (∀ x ∈ st.topo, ∀ k ∈ depsOf A x, k ∈ st.visited) →
      (∀ x ∈ (visitAux A fuel i st).topo, ∀ k ∈ depsOf A x,
        k ∈ (visitAux A fuel i st).visited) := by
  intro fuel
  induction fuel with
  | zero => intro i st h; omega
  | succ fuel ih =>
      intro i st hlt hcl
      by_cases hi : i ∈ st.visited
      · rw [visitAux_succ_mem hi]; exact hcl
      · rw [visitAux_succ_not_mem hi]
        have hgen : ∀ (l : List Nat) (st' : TopoSt), (∀ j ∈ l, j < fuel) →
            (∀ x ∈ st'.topo, ∀ k ∈ depsOf A x, k ∈ st'.visited) →
            ((∀ x ∈ (l.foldl (fun s j => visitAux A fuel j s) st').topo, ∀ k ∈ depsOf A x,
                k ∈ (l.foldl (fun s j => visitAux A fuel j s) st').visited) ∧
             (∀ j ∈ l, j ∈ (l.foldl (fun s j => visitAux A fuel j s) st').visited)) := by
          intro l
          induction l with
          | nil => intro st' _ g; exact ⟨g, by simp⟩
          | cons j rest ihl =>
              intro st' hb g
              have hjf : j < fuel := hb j (List.mem_cons_self _ _)
              have g1 := ih j st' hjf g
              obtain ⟨r1, r2⟩ := ihl (visitAux A fuel j st')
                (fun j' hj' => hb j' (List.mem_cons_of_mem _ hj')) g1
              refine ⟨by simpa using r1, ?_⟩
              intro j' hj'
              rcases List.mem_cons.mp hj' with h | h
              · subst h
                rw [List.foldl_cons]
                exact fold_visited_mono A fuel rest _ j'
                  (visit_self_mem A fuel j' st' (by omega))
              · simpa using r2 j' h
        have hb : ∀ j ∈ depsOf A i, j < fuel := by
          intro j hj
          have := depLT_all hA i j hj
          omega
        have hst1 : ∀ x ∈ (TopoSt.mk (i :: st.visited) st.topo).topo, ∀ k ∈ depsOf A x,
            k ∈ (TopoSt.mk (i :: st.visited) st.topo).visited := by
          intro x hx k hk
          exact List.mem_cons_of_mem _ (hcl x hx k hk)
        obtain ⟨r1, r2⟩ := hgen (depsOf A i) ⟨i :: st.visited, st.topo⟩ hb hst1
        intro x hx k hk
        rcases List.mem_append.mp hx with h | h
        · exact r1 x h k hk
        · have : x = i := by simpa using h
          subst this
          exact r2 k hk

lemma buildTopo_nodup (A : List Node) (t : Nat) : (buildTopo A t).Nodup :=
  ((visit_nodup A (t + 1) t ⟨[], []⟩ (by simp) (by simp)).1).1

lemma mem_buildTopo_iff (A : List Node) (t : Nat) (hA : DepLT A) :
    ∀ x, x ∈ buildTopo A t ↔ Reaches A t x := by
  intro x
  constructor
  · intro hx
    have hvis : x ∈ (visitAux A (t + 1) t ⟨[], []⟩).visited :=
      ((visit_nodup A (t + 1) t ⟨[], []⟩ (by simp) (by simp)).1).2 x hx
    rcases visit_reach A (t + 1) t ⟨[], []⟩ x hvis with h | h
    · simp at h
    · exact h
  · intro hr
    have hblack : ∀ y ∈ (visitAux A (t + 1) t ⟨[], []⟩).visited, y ∈ buildTopo A t := by
      intro y hy
      rcases visit_black A (t + 1) t ⟨[], []⟩ y hy with h | h
      · exact h
      · simp at h
    induction hr with
    | refl =>
        exact hblack t (visit_self_mem A (t + 1) t ⟨[], []⟩ (by omega))
    | step hr2 hd ih =>
        have hcl := visit_closed A hA (t + 1) t ⟨[], []⟩ (by omega) (by simp)
        exact hblack _ (hcl _ ih _ hd)

/-! Frame lemmas: what each mutation leaves untouched. -/

lemma length_writeGrad (A : List Node) (i : Nat) (v : ℚ) :
    (writeGrad A i v).length = A.length := by
  simp [writeGrad]

lemma dataOf_writeGrad (A : List Node) (i : Nat) (v : ℚ) (j : Nat) :
    dataOf (writeGrad A i v) j = dataOf A j := by
  simp only [dataOf, writeGrad]
  by_cases hij : j = i
  · subst hij
    by_cases hi : j < A.length
    · rw [getD_set_self _ _ _ _ hi]
    · rw [set_oob _ _ _ (le_of_not_lt hi)]
  · rw [getD_set_ne _ _ _ _ _ hij]

lemma depsOf_writeGrad (A : List Node) (i : Nat) (v : ℚ) (j : Nat) :
    depsOf (writeGrad A i v) j = depsOf A j := by
  simp only [depsOf, writeGrad]
  by_cases hij : j = i
  · subst hij
    by_cases hi : j < A.length
    · rw [getD_set_self _ _ _ _ hi]
    · rw [set_oob _ _ _ (le_of_not_lt hi)]
  · rw [getD_set_ne _ _ _ _ _ hij]

lemma ruleOf_writeGrad (A : List Node) (i : Nat) (v : ℚ) (j : Nat) :
    ruleOf (writeGrad A i v) j = ruleOf A j := by
  simp only [ruleOf, writeGrad]
  by_cases hij : j = i
  · subst hij
    by_cases hi : j < A.length
    · rw [getD_set_self _ _ _ _ hi]
    · rw [set_oob _ _ _ (le_of_not_lt hi)]
  · rw [getD_set_ne _ _ _ _ _ hij]

lemma gradOf_writeGrad_self (A : List Node) (i : Nat) (v : ℚ) (hi : i < A.length) :
    gradOf (writeGrad A i v) i = v := by
  simp only [gradOf, writeGrad]
  rw [getD_set_self _ _ _ _ hi]

lemma gradOf_writeGrad_ne (A : List Node) (i : Nat) (v : ℚ) (j : Nat) (h : j ≠ i) :
    gradOf (writeGrad A i v) j = gradOf A j := by
  simp only [gradOf, writeGrad]
  rw [getD_set_ne _ _ _ _ _ h]

lemma length_bumpGrad (A : List Node) (i : Nat) (v : ℚ) :
    (bumpGrad A i v).length = A.length := length_writeGrad _ _ _

lemma dataOf_bumpGrad (A : List Node) (i : Nat) (v : ℚ) (j : Nat) :
    dataOf (bumpGrad A i v) j = dataOf A j := dataOf_writeGrad _ _ _ _

lemma depsOf_bumpGrad (A : List Node) (i : Nat) (v : ℚ) (j : Nat) :
    depsOf (bumpGrad A i v) j = depsOf A j := depsOf_writeGrad _ _ _ _

lemma ruleOf_bumpGrad (A : List Node) (i : Nat) (v : ℚ) (j : Nat) :
    ruleOf (bumpGrad A i v) j = ruleOf A j := ruleOf_writeGrad _ _ _ _

lemma gradOf_bumpGrad_ne (A : List Node) (i : Nat) (v : ℚ) (j : Nat) (h : j ≠ i) :
    gradOf (bumpGrad A i v) j = gradOf A j := gradOf_writeGrad_ne _ _ _ _ h

lemma gradOf_bumpGrad_self (A : List Node) (i : Nat) (v : ℚ) (hi : i < A.length) :
    gradOf (bumpGrad A i v) i = gradOf A i + v := gradOf_writeGrad_self _ _ _ hi

lemma applyRule_frame (A : List Node) (i : Nat) (B : List Node)
    (h : applyRule A i = .ok B) :
    B.length = A.length ∧
    (∀ j, dataOf B j = dataOf A j) ∧
    (∀ j, depsOf B j = depsOf A j) ∧
    (∀ j, ruleOf B j = ruleOf A j) ∧
    (∀ j, j ∉ ruleWrites (ruleOf A i) → gradOf B j = gradOf A j) := by
  rw [applyRule] at h
  cases hr : ruleOf A i with
  | noop =>
      rw [hr] at h
      cases h
      exact ⟨rfl, fun j => rfl, fun j => rfl, fun j => rfl, fun j _ => rfl⟩
  | addR a b =>
      rw [hr] at h
      cases h
      refine ⟨by simp [length_bumpGrad], fun j => by simp [dataOf_bumpGrad],
        fun j => by simp [depsOf_bumpGrad], fun j => by simp [ruleOf_bumpGrad], ?_⟩
      intro j hj
      simp [ruleWrites] at hj
      rw [gradOf_bumpGrad_ne _ _ _ _ hj.2, gradOf_bumpGrad_ne _ _ _ _ hj.1]
  | mulR a b =>
      rw [hr] at h
      cases h
      refine ⟨by simp [length_bumpGrad], fun j => by simp [dataOf_bumpGrad],
        fun j => by simp [depsOf_bumpGrad], fun j => by simp [ruleOf_bumpGrad], ?_⟩
      intro j hj
      simp [ruleWrites] at hj
      rw [gradOf_bumpGrad_ne _ _ _ _ hj.2, gradOf_bumpGrad_ne _ _ _ _ hj.1]
  | powR a n =>
      rw [hr] at h
      dsimp only at h
      by_cases hc : dataOf A a = 0 ∧ n - 1 < 0
      · rw [if_pos hc] at h
        cases h
      · rw [if_neg hc] at h
        cases h
        refine ⟨by simp [length_bumpGrad], fun j => by simp [dataOf_bumpGrad],
          fun j => by simp [depsOf_bumpGrad], fun j => by simp [ruleOf_bumpGrad], ?_⟩
        intro j hj
        simp [ruleWrites] at hj
        rw [gradOf_bumpGrad_ne _ _ _ _ hj]

lemma except_bind_ok {ε α β : Type} (x : Except ε α) (f : α → Except ε β) (b : β)
    (h : x >>= f = .ok b) : ∃ a, x = .ok a ∧ f a = .ok b := by
  cases x with
  | error e => simp [Bind.bind, Except.bind] at h
  | ok a => exact ⟨a, rfl, by simpa [Bind.bind, Except.bind] using h⟩

lemma foldlM_applyRule_frame (t : Nat) :
    ∀ (l : List Nat) (S B : List Node),
      (∀ i ∈ l, ∀ w ∈ ruleWrites (ruleOf S i), w < t) →
      l.foldlM (fun B i => applyRule B i) S = .ok B →
      (B.length = S.length ∧ (∀ j, dataOf B j = dataOf S j) ∧
       (∀ j, depsOf B j = depsOf S j) ∧ (∀ j, ruleOf B j = ruleOf S j) ∧
       (∀ j, t ≤ j → gradOf B j = gradOf S j)) := by
  intro l
  induction l with
  | nil =>
      intro S B _ h
      rw [List.foldlM] at h
      cases h
      exact ⟨rfl, fun j => rfl, fun j => rfl, fun j => rfl, fun j _ => rfl⟩
  | cons i rest ih =>
      intro S B hw h
      rw [List.foldlM_cons] at h
      obtain ⟨M, hM, hrest⟩ := except_bind_ok _ _ _ h
      obtain ⟨l1, d1, p1, r1, g1⟩ := applyRule_frame S i M hM
      have hw' : ∀ i' ∈ rest, ∀ w ∈ ruleWrites (ruleOf M i'), w < t := by
        intro i' hi' w hwmem
        rw [r1 i'] at hwmem
        exact hw i' (List.mem_cons_of_mem _ hi') w hwmem
      obtain ⟨l2, d2, p2, r2, g2⟩ := ih M B hw' hrest
      refine ⟨l2.trans l1, fun j => (d2 j).trans (d1 j), fun j => (p2 j).trans (p1 j),
        fun j => (r2 j).trans (r1 j), ?_⟩
      intro j hj
      rw [g2 j hj, g1 j]
      intro hmem
      have := hw i (List.mem_cons_self _ _) j hmem
      omega

lemma backward_effects (A : List Node) (t : Nat) (B : List Node)
    (hA : DepLT A) (hr : RulesWithinDeps A) (ht : t < A.length)
    (hb : backward A t = .ok B) :
    B.length = A.length ∧ (∀ j, dataOf B j = dataOf A j) ∧ gradOf B t = 1 ∧
    (∀ j, t < j → gradOf B j = gradOf A j) := by
  rw [backward] at hb
  have hw : ∀ i ∈ (buildTopo A t).reverse, ∀ w ∈ ruleWrites (ruleOf (writeGrad A t 1) i), w < t := by
    intro i hi w hwmem
    rw [ruleOf_writeGrad] at hwmem
    have hreach : Reaches A t i := (mem_buildTopo_iff A t hA i).mp (List.mem_reverse.mp hi)
    have hit : i ≤ t := reaches_le hA hreach
    have hdep : w ∈ depsOf A i := ruleWrites_sub hr i w hwmem
    have := depLT_all hA i w hdep
    omega
  obtain ⟨l1, d1, _, _, g1⟩ := foldlM_applyRule_frame t _ _ _ hw hb
  refine ⟨l1.trans (length_writeGrad _ _ _), fun j => (d1 j).trans (dataOf_writeGrad _ _ _ _), ?_, ?_⟩
  · rw [g1 t (le_refl t), gradOf_writeGrad_self _ _ _ ht]
  · intro j hj
    rw [g1 j (le_of_lt hj), gradOf_writeGrad_ne _ _ _ _ (by omega)]

/-! Operator calls never touch existing nodes. -/

lemma opFrame_snoc (A : List Node) (n : Node) : opFrame A (.ok (A ++ [n], A.length)) := by
  refine ⟨fun j hj => getD_append_lt _ _ _ _ hj, le_refl _, by simp⟩

lemma opFrame_trans (A ext : List Node) (r : Except Err (List Node × Nat))
    (h : opFrame (A ++ ext) r) : opFrame A r := by
  cases r with
  | error e => trivial
  | ok p =>
      obtain ⟨B, k⟩ := p
      obtain ⟨h1, h2, h3⟩ := h
      refine ⟨?_, ?_, h3⟩
      · intro j hj
        rw [h1 j (by simp; omega), getD_append_lt _ _ _ _ hj]
      · calc A.length ≤ (A ++ ext).length := by simp
          _ ≤ k := h2

lemma pow_neg_one (A : List Node) (x : Nat) :
    Tensor.pow A x (.num (-1)) =
      if dataOf A x = 0 then .error .zeroDivisionError
      else .ok (A ++ [{ data := dataOf A x ^ (-1 : ℤ), grad := 0, deps := [x],
                        op := "**", rule := .powR x (-1) }], A.length) := by
  rw [Tensor.pow]
  norm_num [show ((-1 : ℚ)).den = 1 from rfl, show ((-1 : ℚ)).num = -1 from rfl]

lemma opFrame_add (A : List Node) (x : Nat) (o : PyOperand) : opFrame A (Tensor.add A x o) := by
  cases o with
  | invalid s => trivial
  | num q => exact opFrame_trans A [Tensor.initRaw q] _ (opFrame_snoc _ _)
  | tensor j => exact opFrame_snoc _ _

lemma opFrame_radd (A : List Node) (x : Nat) (o : PyOperand) : opFrame A (Tensor.radd A x o) := by
  cases o with
  | invalid s => trivial
  | num q => exact opFrame_add A x (.num q)
  | tensor j => exact opFrame_add A x (.tensor j)

lemma opFrame_mul (A : List Node) (x : Nat) (o : PyOperand) : opFrame A (Tensor.mul A x o) := by
  cases o with
  | invalid s => trivial
  | num q => exact opFrame_trans A [Tensor.initRaw q] _ (opFrame_snoc _ _)
  | tensor j => exact opFrame_snoc _ _

lemma opFrame_rmul (A : List Node) (x : Nat) (o : PyOperand) : opFrame A (Tensor.rmul A x o) := by
  cases o with
  | invalid s => trivial
  | num q => exact opFrame_mul A x (.num q)
  | tensor j => exact opFrame_mul A x (.tensor j)

lemma opFrame_pow (A : List Node) (x : Nat) (o : PyOperand) : opFrame A (Tensor.pow A x o) := by
  cases o with
  | invalid s => trivial
  | tensor j => trivial
  | num q =>
      rw [Tensor.pow]
      by_cases hden : q.den = 1
      · rw [if_pos hden]
        by_cases hz : dataOf A x = 0 ∧ q.num < 0
        · rw [if_pos hz]; trivial
        · rw [if_neg hz]; exact opFrame_snoc _ _
      · rw [if_neg hden]; trivial

lemma opFrame_neg (A : List Node) (x : Nat) : opFrame A (Tensor.neg A x) :=
  opFrame_mul A x (.num (-1))

lemma opFrame_mono (A B : List Node) (r : Except Err (List Node × Nat))
    (hlen : A.length ≤ B.length)
    (hpre : ∀ j, j < A.length → B.getD j dNode = A.getD j dNode)
    (h : opFrame B r) : opFrame A r := by
  cases r with
  | error e => trivial
  | ok p =>
      obtain ⟨C, k⟩ := p
      obtain ⟨h1, h2, h3⟩ := h
      exact ⟨fun j hj => (h1 j (lt_of_lt_of_le hj hlen)).trans (hpre j hj),
        le_trans hlen h2, h3⟩

lemma opFrame_bind (A : List Node) (e : Except Err (List Node × Nat))
    (f : List Node × Nat → Except Err (List Node × Nat))
    (he : opFrame A e)
    (hf : ∀ B k, e = .ok (B, k) → opFrame B (f (B, k))) :
    opFrame A (e >>= f) := by
  cases hv : e with
  | error err => trivial
  | ok p =>
      obtain ⟨B, k⟩ := p
      rw [hv] at he
      obtain ⟨h1, h2, h3⟩ := he
      exact opFrame_mono A B _ (le_of_lt (lt_of_le_of_lt h2 h3)) h1 (hf B k hv)

lemma opFrame_sub (A : List Node) (x : Nat) (o : PyOperand) : opFrame A (Tensor.sub A x o) := by
  cases o with
  | invalid s => trivial
  | num q => exact opFrame_add A x (.num (-q))
  | tensor j =>
      show opFrame A (Tensor.neg A j >>= fun p => Tensor.add p.1 x (.tensor p.2))
      exact opFrame_bind A _ _ (opFrame_neg A j) fun B k _ => opFrame_add B x (.tensor k)

lemma opFrame_rsub (A : List Node) (x : Nat) (o : PyOperand) : opFrame A (Tensor.rsub A x o) := by
  cases o with
  | invalid s => trivial
  | num q =>
      show opFrame A (Tensor.neg A x >>= fun p => Tensor.radd p.1 p.2 (.num q))
      exact opFrame_bind A _ _ (opFrame_neg A x) fun B k _ => opFrame_radd B k (.num q)
  | tensor j =>
      show opFrame A (Tensor.neg A x >>= fun p => Tensor.add p.1 j (.tensor p.2))
      exact opFrame_bind A _ _ (opFrame_neg A x) fun B k _ => opFrame_add B j (.tensor k)

lemma opFrame_truediv (A : List Node) (x : Nat) (o : PyOperand) :
    opFrame A (Tensor.truediv A x o) := by
  cases o with
  | invalid s => trivial
  | num q =>
      rw [Tensor.truediv]
      by_cases hq : q = 0
      · rw [if_pos hq]; trivial
      · rw [if_neg hq]; exact opFrame_mul A x (.num q⁻¹)
  | tensor j =>
      show opFrame A (Tensor.pow A j (.num (-1)) >>= fun p => Tensor.mul p.1 x (.tensor p.2))
      exact opFrame_bind A _ _ (opFrame_pow A j _) fun B k _ => opFrame_mul B x (.tensor k)

lemma opFrame_rtruediv (A : List Node) (x : Nat) (o : PyOperand) :
    opFrame A (Tensor.rtruediv A x o) := by
  cases o with
  | invalid s => trivial
  | num q =>
      show opFrame A (Tensor.pow A x (.num (-1)) >>= fun p => Tensor.rmul p.1 p.2 (.num q))
      exact opFrame_bind A _ _ (opFrame_pow A x _) fun B k _ => opFrame_rmul B k (.num q)
  | tensor j =>
      show opFrame A (Tensor.pow A x (.num (-1)) >>= fun p => Tensor.mul p.1 j (.tensor p.2))
      exact opFrame_bind A _ _ (opFrame_pow A x _) fun B k _ => opFrame_mul B j (.tensor k)

/-! Forward correctness: building an expression through the engine gives
the same value (and the same error) as evaluating it directly. -/

lemma bind_ok {ε α β : Type} (a : α) (f : α → Except ε β) :
    (Except.ok a >>= f) = f a := rfl

lemma bind_err {ε α β : Type} (e : ε) (f : α → Except ε β) :
    (Except.error e >>= f : Except ε β) = .error e := rfl

lemma dataOf_append_lt (A ext : List Node) (i : Nat) (h : i < A.length) :
    dataOf (A ++ ext) i = dataOf A i := by
  simp only [dataOf]
  rw [getD_append_lt _ _ _ _ h]

lemma dataOf_snoc (A : List Node) (n : Node) : dataOf (A ++ [n]) A.length = n.data := by
  simp only [dataOf]
  rw [getD_append_len]

lemma add_tensor_eq (A : List Node) (i j : Nat) :
    Tensor.add A i (.tensor j) =
      .ok (A ++ [{ data := dataOf A i + dataOf A j, grad := 0, deps := [i, j].dedup,
                   op := "+", rule := .addR i j }], A.length) := rfl

lemma mul_tensor_eq (A : List Node) (i j : Nat) :
    Tensor.mul A i (.tensor j) =
      .ok (A ++ [{ data := dataOf A i * dataOf A j, grad := 0, deps := [i, j].dedup,
                   op := "*", rule := .mulR i j }], A.length) := rfl

lemma pow_int_eq (A : List Node) (i : Nat) (n : ℤ) :
    Tensor.pow A i (.num (n : ℚ)) =
      if dataOf A i = 0 ∧ n < 0 then .error .zeroDivisionError
      else .ok (A ++ [{ data := dataOf A i ^ n, grad := 0, deps := [i],
                        op := "**", rule := .powR i n }], A.length) := by
  rw [Tensor.pow, if_pos (Rat.den_intCast n), Rat.num_intCast]

lemma neg_eq (A : List Node) (x : Nat) :
    Tensor.neg A x = .ok ((A ++ [Tensor.initRaw (-1)]) ++
      [{ data := dataOf (A ++ [Tensor.initRaw (-1)]) x *
           dataOf (A ++ [Tensor.initRaw (-1)]) A.length,
         grad := 0, deps := [x, A.length].dedup, op := "*", rule := .mulR x A.length }],
      (A ++ [Tensor.initRaw (-1)]).length) := rfl

lemma buildE_ok : ∀ (e : Expr) (A : List Node) (v : ℚ), evalE e = .ok v →
    ∃ B k, buildE e A = .ok (B, k) ∧
      (∀ i, i < A.length → B.getD i dNode = A.getD i dNode) ∧
      A.length ≤ B.length ∧ k < B.length ∧ dataOf B k = v := by
  intro e
  induction e with
  | leaf w =>
      intro A v hv
      rw [evalE] at hv
      cases hv
      refine ⟨A ++ [Tensor.initRaw w], A.length, rfl, fun i hi => getD_append_lt _ _ _ _ hi,
        by simp, by simp, ?_⟩
      rw [dataOf_snoc]
      rfl
  | add a b iha ihb =>
      intro A v hv
      rw [evalE] at hv
      cases hva : evalE a with
      | error err => rw [hva, bind_err] at hv; cases hv
      | ok va =>
          rw [hva, bind_ok] at hv
          cases hvb : evalE b with
          | error err => rw [hvb, bind_err] at hv; cases hv
          | ok vb =>
              rw [hvb, bind_ok] at hv
              cases hv
              obtain ⟨B1, k1, hb1, hp1, hl1, hk1, hd1⟩ := iha A va hva
              obtain ⟨B2, k2, hb2, hp2, hl2, hk2, hd2⟩ := ihb B1 vb hvb
              have hred : buildE (.add a b) A = Tensor.add B2 k1 (.tensor k2) := by
                rw [buildE, hb1, bind_ok]
                dsimp only
                rw [hb2, bind_ok]
              rw [add_tensor_eq] at hred
              refine ⟨_, _, hred, ?_, ?_, ?_, ?_⟩
              · intro i hi
                rw [getD_append_lt _ _ _ _ (by omega), hp2 i (by omega), hp1 i hi]
              · simp; omega
              · simp
              · rw [dataOf_snoc]
                show dataOf B2 k1 + dataOf B2 k2 = va + vb
                have hst : dataOf B2 k1 = dataOf B1 k1 := by
                  simp only [dataOf]
                  rw [hp2 k1 hk1]
                rw [hst, hd1, hd2]
  | mul a b iha ihb =>
      intro A v hv
      rw [evalE] at hv
      cases hva : evalE a with
      | error err => rw [hva, bind_err] at hv; cases hv
      | ok va =>
          rw [hva, bind_ok] at hv
          cases hvb : evalE b with
          | error err => rw [hvb, bind_err] at hv; cases hv
          | ok vb =>
              rw [hvb, bind_ok] at hv
              cases hv
              obtain ⟨B1, k1, hb1, hp1, hl1, hk1, hd1⟩ := iha A va hva
              obtain ⟨B2, k2, hb2, hp2, hl2, hk2, hd2⟩ := ihb B1 vb hvb
              have hred : buildE (.mul a b) A = Tensor.mul B2 k1 (.tensor k2) := by
                rw [buildE, hb1, bind_ok]
                dsimp only
                rw [hb2, bind_ok]
              rw [mul_tensor_eq] at hred
              refine ⟨_, _, hred, ?_, ?_, ?_, ?_⟩
              · intro i hi
                rw [getD_append_lt _ _ _ _ (by omega), hp2 i (by omega), hp1 i hi]
              · simp; omega
              · simp
              · rw [dataOf_snoc]
                show dataOf B2 k1 * dataOf B2 k2 = va * vb
                have hst : dataOf B2 k1 = dataOf B1 k1 := by
                  simp only [dataOf]
                  rw [hp2 k1 hk1]
                rw [hst, hd1, hd2]
  | neg a iha =>
      intro A v hv
      rw [evalE] at hv
      cases hva : evalE a with
      | error err => rw [hva, bind_err] at hv; cases hv
      | ok va =>
          rw [hva, bind_ok] at hv
          cases hv
          obtain ⟨B1, k1, hb1, hp1, hl1, hk1, hd1⟩ := iha A va hva
          have hred : buildE (.neg a) A = Tensor.neg B1 k1 := by
            rw [buildE, hb1, bind_ok]
          rw [neg_eq] at hred
          refine ⟨_, _, hred, ?_, ?_, ?_, ?_⟩
          · intro i hi
            rw [getD_append_lt _ _ _ _ (by simp; omega), getD_append_lt _ _ _ _ (by omega),
              hp1 i hi]
          · simp; omega
          · simp
          · rw [dataOf_snoc]
            show dataOf (B1 ++ [Tensor.initRaw (-1)]) k1 *
              dataOf (B1 ++ [Tensor.initRaw (-1)]) B1.length = -va
            rw [dataOf_append_lt _ _ _ hk1, dataOf_snoc, hd1]
            show va * (-1) = -va
            ring
  | sub a b iha ihb =>
      intro A v hv
      rw [evalE] at hv
      cases hva : evalE a with
      | error err => rw [hva, bind_err] at hv; cases hv
      | ok va =>
          rw [hva, bind_ok] at hv
          cases hvb : evalE b with
          | error err => rw [hvb, bind_err] at hv; cases hv
          | ok vb =>
              rw [hvb, bind_ok] at hv
              cases hv
              obtain ⟨B1, k1, hb1, hp1, hl1, hk1, hd1⟩ := iha A va hva
              obtain ⟨B2, k2, hb2, hp2, hl2, hk2, hd2⟩ := ihb B1 vb hvb
              have hred : buildE (.sub a b) A =
                  (Tensor.neg B2 k2 >>= fun p => Tensor.add p.1 k1 (.tensor p.2)) := by
                rw [buildE, hb1, bind_ok]
                dsimp only
                rw [hb2, bind_ok]
                rfl
              rw [neg_eq, bind_ok, add_tensor_eq] at hred
              refine ⟨_, _, hred, ?_, ?_, ?_, ?_⟩
              · intro i hi
                rw [getD_append_lt _ _ _ _ (by simp; omega),
                  getD_append_lt _ _ _ _ (by simp; omega),
                  getD_append_lt _ _ _ _ (by omega), hp2 i (by omega), hp1 i hi]
              · simp; omega
              · simp
              · rw [dataOf_snoc]
                show dataOf ((B2 ++ [Tensor.initRaw (-1)]) ++ [_]) k1 +
                  dataOf ((B2 ++ [Tensor.initRaw (-1)]) ++ [_])
                    (B2 ++ [Tensor.initRaw (-1)]).length = va - vb
                have hst : dataOf B2 k1 = dataOf B1 k1 := by
                  simp only [dataOf]
                  rw [hp2 k1 hk1]
                rw [dataOf_append_lt _ _ _ (by simp; omega), dataOf_append_lt _ _ _ (by omega),
                  hst, hd1, dataOf_snoc]
                show va + dataOf (B2 ++ [Tensor.initRaw (-1)]) k2 *
                  dataOf (B2 ++ [Tensor.initRaw (-1)]) B2.length = va - vb
                rw [dataOf_append_lt _ _ _ hk2, dataOf_snoc, hd2]
                show va + vb * (-1) = va - vb
                ring
  | pow a n iha =>
      intro A v hv
      rw [evalE] at hv
      cases hva : evalE a with
      | error err => rw [hva, bind_err] at hv; cases hv
      | ok va =>
          rw [hva, bind_ok] at hv
          by_cases hc : va = 0 ∧ n < 0
          · rw [if_pos hc] at hv; cases hv
          · rw [if_neg hc] at hv
            cases hv
            obtain ⟨B1, k1, hb1, hp1, hl1, hk1, hd1⟩ := iha A va hva
            have hred : buildE (.pow a n) A = Tensor.pow B1 k1 (.num (n : ℚ)) := by
              rw [buildE, hb1, bind_ok]
            rw [pow_int_eq, hd1, if_neg hc] at hred
            refine ⟨_, _, hred, ?_, ?_, ?_, ?_⟩
            · intro i hi
              rw [getD_append_lt _ _ _ _ (by omega), hp1 i hi]
            · simp; omega
            · simp
            · rw [dataOf_snoc]
  | div a b iha ihb =>
      intro A v hv
      rw [evalE] at hv
      cases hva : evalE a with
      | error err => rw [hva, bind_err] at hv; cases hv
      | ok va =>
          rw [hva, bind_ok] at hv
          cases hvb : evalE b with
          | error err => rw [hvb, bind_err] at hv; cases hv
          | ok vb =>
              rw [hvb, bind_ok] at hv
              by_cases hz : vb = 0
              · rw [if_pos hz] at hv; cases hv
              · rw [if_neg hz] at hv
                cases hv
                obtain ⟨B1, k1, hb1, hp1, hl1, hk1, hd1⟩ := iha A va hva
                obtain ⟨B2, k2, hb2, hp2, hl2, hk2, hd2⟩ := ihb B1 vb hvb
                have hred : buildE (.div a b) A =
                    (Tensor.pow B2 k2 (.num (-1)) >>= fun p => Tensor.mul p.1 k1 (.tensor p.2)) := by
                  rw [buildE, hb1, bind_ok]
                  dsimp only
                  rw [hb2, bind_ok]
                  rfl
                rw [pow_neg_one, if_neg (show ¬dataOf B2 k2 = 0 by rw [hd2]; exact hz),
                  bind_ok, mul_tensor_eq] at hred
                refine ⟨_, _, hred, ?_, ?_, ?_, ?_⟩
                · intro i hi
                  rw [getD_append_lt _ _ _ _ (by simp; omega),
                    getD_append_lt _ _ _ _ (by omega), hp2 i (by omega), hp1 i hi]
                · simp; omega
                · simp
                · rw [dataOf_snoc]
                  show dataOf (B2 ++ [_]) k1 * dataOf (B2 ++ [_]) B2.length = va / vb
                  have hst : dataOf B2 k1 = dataOf B1 k1 := by
                    simp only [dataOf]
                    rw [hp2 k1 hk1]
                  rw [dataOf_append_lt _ _ _ (by omega), hst, hd1, dataOf_snoc]
                  show va * dataOf B2 k2 ^ (-1 : ℤ) = va / vb
                  rw [hd2, zpow_neg_one]
                  exact (div_eq_mul_inv va vb).symm

lemma buildE_err : ∀ (e : Expr) (A : List Node) (err : Err), evalE e = .error err →
    buildE e A = .error err := by
  intro e
  induction e with
  | leaf w => intro A err h; rw [evalE] at h; cases h
  | add a b iha ihb =>
      intro A err h
      rw [evalE] at h
      cases hva : evalE a with
      | error e1 =>
          rw [hva, bind_err] at h
          cases h
          rw [buildE, iha A _ hva, bind_err]
      | ok va =>
          rw [hva, bind_ok] at h
          cases hvb : evalE b with
          | error e2 =>
              rw [hvb, bind_err] at h
              cases h
              obtain ⟨B1, k1, hb1, _, _, _, _⟩ := buildE_ok a A va hva
              rw [buildE, hb1, bind_ok]
              dsimp only
              rw [ihb B1 _ hvb, bind_err]
          | ok vb => rw [hvb, bind_ok] at h; cases h
  | mul a b iha ihb =>
      intro A err h
      rw [evalE] at h
      cases hva : evalE a with
      | error e1 =>
          rw [hva, bind_err] at h
          cases h
          rw [buildE, iha A _ hva, bind_err]
      | ok va =>
          rw [hva, bind_ok] at h
          cases hvb : evalE b with
          | error e2 =>
              rw [hvb, bind_err] at h
              cases h
              obtain ⟨B1, k1, hb1, _, _, _, _⟩ := buildE_ok a A va hva
              rw [buildE, hb1, bind_ok]
              dsimp only
              rw [ihb B1 _ hvb, bind_err]
          | ok vb => rw [hvb, bind_ok] at h; cases h
  | neg a iha =>
      intro A err h
      rw [evalE] at h
      cases hva : evalE a with
      | error e1 =>
          rw [hva, bind_err] at h
          cases h
          rw [buildE, iha A _ hva, bind_err]
      | ok va => rw [hva, bind_ok] at h; cases h
  | sub a b iha ihb =>
      intro A err h
      rw [evalE] at h
      cases hva : evalE a with
      | error e1 =>
          rw [hva, bind_err] at h
          cases h
          rw [buildE, iha A _ hva, bind_err]
      | ok va =>
          rw [hva, bind_ok] at h
          cases hvb : evalE b with
          | error e2 =>
              rw [hvb, bind_err] at h
              cases h
              obtain ⟨B1, k1, hb1, _, _, _, _⟩ := buildE_ok a A va hva
              rw [buildE, hb1, bind_ok]
              dsimp only
              rw [ihb B1 _ hvb, bind_err]
          | ok vb => rw [hvb, bind_ok] at h; cases h
  | pow a n iha =>
      intro A err h
      rw [evalE] at h
      cases hva : evalE a with
      | error e1 =>
          rw [hva, bind_err] at h
          cases h
          rw [buildE, iha A _ hva, bind_err]
      | ok va =>
          rw [hva, bind_ok] at h
          by_cases hc : va = 0 ∧ n < 0
          · rw [if_pos hc] at h
            cases h
            obtain ⟨B1, k1, hb1, _, _, _, hd1⟩ := buildE_ok a A va hva
            have hred : buildE (.pow a n) A = Tensor.pow B1 k1 (.num (n : ℚ)) := by
              rw [buildE, hb1, bind_ok]
            rw [hred, pow_int_eq, hd1, if_pos hc]
          · rw [if_neg hc] at h
            cases h
  | div a b iha ihb =>
      intro A err h
      rw [evalE] at h
      cases hva : evalE a with
      | error e1 =>
          rw [hva, bind_err] at h
          cases h
          rw [buildE, iha A _ hva, bind_err]
      | ok va =>
          rw [hva, bind_ok] at h
          cases hvb : evalE b with
          | error e2 =>
              rw [hvb, bind_err] at h
              cases h
              obtain ⟨B1, k1, hb1, _, _, _, _⟩ := buildE_ok a A va hva
              rw [buildE, hb1, bind_ok]
              dsimp only
              rw [ihb B1 _ hvb, bind_err]
          | ok vb =>
              rw [hvb, bind_ok] at h
              by_cases hz : vb = 0
              · rw [if_pos hz] at h
                cases h
                obtain ⟨B1, k1, hb1, _, _, _, hd1⟩ := buildE_ok a A va hva
                obtain ⟨B2, k2, hb2, hp2, _, _, hd2⟩ := buildE_ok b B1 vb hvb
                have hred : buildE (.div a b) A =
                    (Tensor.pow B2 k2 (.num (-1)) >>=
                      fun p => Tensor.mul p.1 k1 (.tensor p.2)) := by
                  rw [buildE, hb1, bind_ok]
                  dsimp only
                  rw [hb2, bind_ok]
                  rfl
                rw [hred, pow_neg_one, if_pos (by rw [hd2]; exact hz), bind_err]
              · rw [if_neg hz] at h
                cases h

lemma buildE_dataRes (e : Expr) (A : List Node) : dataRes (buildE e A) = evalE e := by
  cases hv : evalE e with
  | ok v =>
      obtain ⟨B, k, hb, _, _, _, hd⟩ := buildE_ok e A v hv
      rw [dataRes, hb]
      show Except.ok (dataOf B k) = Except.ok v
      rw [hd]
  | error err =>
      rw [dataRes, buildE_err e A err hv]
      rfl

/-! Depth-one graphs: a terminal whose dependencies are all leaves. -/

lemma set_getD_self {α : Type} : ∀ (l : List α) (i : Nat) (d : α),
    l.set i (l.getD i d) = l := by
  intro l
  induction l with
  | nil => intro i d; rfl
  | cons a tl ih =>
      intro i d
      cases i with
      | zero => rfl
      | succ i =>
          show a :: tl.set i (tl.getD i d) = a :: tl
          rw [ih]

lemma writeGrad_self_grad (B : List Node) (t : Nat) :
    writeGrad B t (gradOf B t) = B := by
  show B.set t { B.getD t dNode with grad := (B.getD t dNode).grad } = B
  exact set_getD_self B t dNode

lemma fold_leaves (A : List Node) (fuel : Nat) :
    ∀ (l : List Nat) (vis topo : List Nat),
      l.Nodup → (∀ j ∈ l, 0 < fuel ∧ depsOf A j = [] ∧ j ∉ vis) →
      ((l.foldl (fun s j => visitAux A fuel j s) ⟨vis, topo⟩).visited = l.reverse ++ vis ∧
       (l.foldl (fun s j => visitAux A fuel j s) ⟨vis, topo⟩).topo = topo ++ l) := by
  intro l
  induction l with
  | nil => intro vis topo _ _; exact ⟨rfl, by simp⟩
  | cons j rest ih =>
      intro vis topo hnd hp
      obtain ⟨hf, hdj, hjv⟩ := hp j (List.mem_cons_self _ _)
      cases fuel with
      | zero => omega
      | succ f =>
          rw [List.foldl_cons]
          have hv : visitAux A (f + 1) j ⟨vis, topo⟩ = ⟨j :: vis, topo ++ [j]⟩ := by
            rw [visitAux_succ_not_mem hjv]
            show (⟨((depsOf A j).foldl (fun s j' => visitAux A f j' s) ⟨j :: vis, topo⟩).visited,
              ((depsOf A j).foldl (fun s j' => visitAux A f j' s) ⟨j :: vis, topo⟩).topo ++ [j]⟩ :
                TopoSt) = ⟨j :: vis, topo ++ [j]⟩
            rw [hdj]
            rfl
          rw [hv]
          have hcond : ∀ j' ∈ rest, 0 < f + 1 ∧ depsOf A j' = [] ∧ j' ∉ j :: vis := by
            intro j' hj'
            obtain ⟨g1, g2, g3⟩ := hp j' (List.mem_cons_of_mem _ hj')
            refine ⟨g1, g2, ?_⟩
            intro hc
            rcases List.mem_cons.mp hc with hc | hc
            · subst hc
              exact (List.nodup_cons.mp hnd).1 hj'
            · exact g3 hc
          obtain ⟨h1, h2⟩ := ih (j :: vis) (topo ++ [j]) (List.Nodup.of_cons hnd) hcond
          constructor
          · rw [h1]
            simp
          · rw [h2]
            simp

lemma buildTopo_depth1 (A : List Node) (t : Nat)
    (hleaf : ∀ j ∈ depsOf A t, j < t ∧ depsOf A j = [] ∧ ruleOf A j = .noop)
    (hnd : (depsOf A t).Nodup) :
    buildTopo A t = depsOf A t ++ [t] := by
  rw [buildTopo, visitAux_succ_not_mem (by simp)]
  have hcond : ∀ j ∈ depsOf A t, 0 < t ∧ depsOf A j = [] ∧ j ∉ [t] := by
    intro j hj
    obtain ⟨hjt, hdj, _⟩ := hleaf j hj
    exact ⟨by omega, hdj, by simp; omega⟩
  obtain ⟨h1, h2⟩ := fold_leaves A t (depsOf A t) [t] [] hnd hcond
  show ((depsOf A t).foldl (fun s j => visitAux A t j s) ⟨[t], []⟩).topo ++ [t] =
    depsOf A t ++ [t]
  rw [h2]
  simp

lemma foldlM_noop (l : List Nat) : ∀ (C : List Node), (∀ j ∈ l, ruleOf C j = .noop) →
    l.foldlM (fun C i => applyRule C i) C = .ok C := by
  induction l with
  | nil => intro C _; rfl
  | cons j rest ih =>
      intro C h
      rw [List.foldlM_cons]
      have ha : applyRule C j = .ok C := by
        rw [applyRule, h j (List.mem_cons_self _ _)]
      rw [ha, bind_ok]
      exact ih C fun j' hj' => h j' (List.mem_cons_of_mem _ hj')

lemma depth1_fold (A : List Node) (t : Nat) (S : List Node)
    (hlen : S.length = A.length) (ht : t < A.length)
    (hrule : ∀ j, ruleOf S j = ruleOf A j) (hdata : ∀ j, dataOf S j = dataOf A j)
    (hdeps : ∀ j, depsOf S j = depsOf A j)
    (hgt : gradOf S t = 1)
    (hleaf : ∀ j ∈ depsOf A t, j < t ∧ depsOf A j = [] ∧ ruleOf A j = .noop)
    (hw : ∀ w ∈ ruleWrites (ruleOf A t), w ∈ depsOf A t)
    (hs : RuleSafe A t) :
    ∃ B, (t :: (depsOf A t).reverse).foldlM (fun C i => applyRule C i) S = .ok B ∧
      B.length = A.length ∧
      (∀ j, ruleOf B j = ruleOf A j) ∧ (∀ j, dataOf B j = dataOf A j) ∧
      (∀ j, depsOf B j = depsOf A j) ∧
      gradOf B t = 1 ∧
      (∀ j, j ≠ t → gradOf B j = gradOf S j + ruleInc A t j) := by
  rw [List.foldlM_cons]
  cases hrl : ruleOf A t with
  | noop =>
      have hSt : ruleOf S t = .noop := (hrule t).trans hrl
      have happly : applyRule S t = .ok S := by rw [applyRule, hSt]
      refine ⟨S, ?_, hlen, hrule, hdata, hdeps, hgt, ?_⟩
      · rw [happly, bind_ok]
        exact foldlM_noop _ S fun j hj =>
          (hrule j).trans (hleaf j (List.mem_reverse.mp hj)).2.2
      · intro j hj
        simp only [ruleInc, hrl]
        simp
  | addR a b =>
      have hSt : ruleOf S t = .addR a b := (hrule t).trans hrl
      have hw' := hw
      rw [hrl] at hw'
      have hwa : a ∈ depsOf A t := hw' a (by simp [ruleWrites])
      have hwb : b ∈ depsOf A t := hw' b (by simp [ruleWrites])
      have hat : a < t := (hleaf a hwa).1
      have hbt : b < t := (hleaf b hwb).1
      have haS : a < S.length := by omega
      have hbS : b < S.length := by omega
      have happly : applyRule S t = .ok (bumpGrad (bumpGrad S a (gradOf S t)) b
          (gradOf (bumpGrad S a (gradOf S t)) t)) := by
        rw [applyRule, hSt]
      rw [hgt] at happly
      have hg2 : gradOf (bumpGrad S a 1) t = 1 := by
        rw [gradOf_bumpGrad_ne _ _ _ _ (by omega)]
        exact hgt
      rw [hg2] at happly
      refine ⟨bumpGrad (bumpGrad S a 1) b 1, ?_, ?_, ?_, ?_, ?_, ?_, ?_⟩
      · rw [happly, bind_ok]
        exact foldlM_noop _ _ fun j hj => by
          rw [ruleOf_bumpGrad, ruleOf_bumpGrad, hrule j,
            (hleaf j (List.mem_reverse.mp hj)).2.2]
      · rw [length_bumpGrad, length_bumpGrad, hlen]
      · intro j
        rw [ruleOf_bumpGrad, ruleOf_bumpGrad, hrule j]
      · intro j
        rw [dataOf_bumpGrad, dataOf_bumpGrad, hdata j]
      · intro j
        rw [depsOf_bumpGrad, depsOf_bumpGrad, hdeps j]
      · rw [gradOf_bumpGrad_ne _ _ _ _ (by omega), gradOf_bumpGrad_ne _ _ _ _ (by omega)]
        exact hgt
      · intro j hj
        simp only [ruleInc, hrl]
        by_cases hja : j = a
        · by_cases hjb : j = b
          · subst hja
            subst hjb
            rw [gradOf_bumpGrad_self _ _ _ (by rw [length_bumpGrad]; exact haS),
              gradOf_bumpGrad_self _ _ _ haS]
            simp
            ring
          · subst hja
            rw [gradOf_bumpGrad_ne _ _ _ _ hjb, gradOf_bumpGrad_self _ _ _ haS]
            simp [hjb]
        · by_cases hjb : j = b
          · subst hjb
            rw [gradOf_bumpGrad_self _ _ _ (by rw [length_bumpGrad]; exact hbS),
              gradOf_bumpGrad_ne _ _ _ _ hja]
            simp [hja]
          · rw [gradOf_bumpGrad_ne _ _ _ _ hjb, gradOf_bumpGrad_ne _ _ _ _ hja]
            simp [hja, hjb]
  | mulR a b =>
      have hSt : ruleOf S t = .mulR a b := (hrule t).trans hrl
      have hw' := hw
      rw [hrl] at hw'
      have hwa : a ∈ depsOf A t := hw' a (by simp [ruleWrites])
      have hwb : b ∈ depsOf A t := hw' b (by simp [ruleWrites])
      have hat : a < t := (hleaf a hwa).1
      have hbt : b < t := (hleaf b hwb).1
      have haS : a < S.length := by omega
      have hbS : b < S.length := by omega
      have happly : applyRule S t = .ok (bumpGrad (bumpGrad S a (dataOf S b * gradOf S t)) b
          (dataOf (bumpGrad S a (dataOf S b * gradOf S t)) a *
            gradOf (bumpGrad S a (dataOf S b * gradOf S t)) t)) := by
        rw [applyRule, hSt]
      rw [hgt] at happly
      have hg2 : gradOf (bumpGrad S a (dataOf S b * 1)) t = 1 := by
        rw [gradOf_bumpGrad_ne _ _ _ _ (by omega)]
        exact hgt
      rw [hg2, dataOf_bumpGrad] at happly
      refine ⟨bumpGrad (bumpGrad S a (dataOf S b * 1)) b (dataOf S a * 1),
        ?_, ?_, ?_, ?_, ?_, ?_, ?_⟩
      · rw [happly, bind_ok]
        exact foldlM_noop _ _ fun j hj => by
          rw [ruleOf_bumpGrad, ruleOf_bumpGrad, hrule j,
            (hleaf j (List.mem_reverse.mp hj)).2.2]
      · rw [length_bumpGrad, length_bumpGrad, hlen]
      · intro j
        rw [ruleOf_bumpGrad, ruleOf_bumpGrad, hrule j]
      · intro j
        rw [dataOf_bumpGrad, dataOf_bumpGrad, hdata j]
      · intro j
        rw [depsOf_bumpGrad, depsOf_bumpGrad, hdeps j]
      · rw [gradOf_bumpGrad_ne _ _ _ _ (by omega), gradOf_bumpGrad_ne _ _ _ _ (by omega)]
        exact hgt
      · intro j hj
        simp only [ruleInc, hrl]
        by_cases hja : j = a
        · by_cases hjb : j = b
          · subst hja
            subst hjb
            rw [gradOf_bumpGrad_self _ _ _ (by rw [length_bumpGrad]; exact haS),
              gradOf_bumpGrad_self _ _ _ haS]
            simp only [hdata]
            simp
            ring
          · subst hja
            rw [gradOf_bumpGrad_ne _ _ _ _ hjb, gradOf_bumpGrad_self _ _ _ haS]
            simp only [hdata]
            simp [hjb]
        · by_cases hjb : j = b
          · subst hjb
            rw [gradOf_bumpGrad_self _ _ _ (by rw [length_bumpGrad]; exact hbS),
              gradOf_bumpGrad_ne _ _ _ _ hja]
            simp only [hdata]
            simp [hja]
          · rw [gradOf_bumpGrad_ne _ _ _ _ hjb, gradOf_bumpGrad_ne _ _ _ _ hja]
            simp [hja, hjb]
  | powR a n =>
      have hSt : ruleOf S t = .powR a n := (hrule t).trans hrl
      have hw' := hw
      rw [hrl] at hw'
      have hwa : a ∈ depsOf A t := hw' a (by simp [ruleWrites])
      have hat : a < t := (hleaf a hwa).1
      have haS : a < S.length := by omega
      have hs' : ¬(dataOf A a = 0 ∧ n - 1 < 0) := by
        rw [RuleSafe, hrl] at hs
        exact hs
      have hguard : ¬(dataOf S a = 0 ∧ n - 1 < 0) := by
        rw [hdata a]
        exact hs'
      have happly : applyRule S t =
          .ok (bumpGrad S a ((n : ℚ) * dataOf S a ^ (n - 1) * gradOf S t)) := by
        rw [applyRule, hSt]
        dsimp only
        rw [if_neg hguard]
      rw [hgt] at happly
      refine ⟨bumpGrad S a ((n : ℚ) * dataOf S a ^ (n - 1) * 1), ?_, ?_, ?_, ?_, ?_, ?_, ?_⟩
      · rw [happly, bind_ok]
        exact foldlM_noop _ _ fun j hj => by
          rw [ruleOf_bumpGrad, hrule j, (hleaf j (List.mem_reverse.mp hj)).2.2]
      · rw [length_bumpGrad, hlen]
      · intro j
        rw [ruleOf_bumpGrad, hrule j]
      · intro j
        rw [dataOf_bumpGrad, hdata j]
      · intro j
        rw [depsOf_bumpGrad, hdeps j]
      · rw [gradOf_bumpGrad_ne _ _ _ _ (by omega)]
        exact hgt
      · intro j hj
        simp only [ruleInc, hrl]
        by_cases hja : j = a
        · subst hja
          rw [gradOf_bumpGrad_self _ _ _ haS]
          simp only [hdata]
          simp
        · rw [gradOf_bumpGrad_ne _ _ _ _ hja]
          simp [hja]

lemma backward_depth1_double (A : List Node) (t : Nat)
    (ht : t < A.length)
    (hleaf : ∀ j ∈ depsOf A t, j < t ∧ depsOf A j = [] ∧ ruleOf A j = .noop)
    (hnd : (depsOf A t).Nodup)
    (hw : ∀ w ∈ ruleWrites (ruleOf A t), w ∈ depsOf A t)
    (hg : ∀ j, j < A.length → gradOf A j = 0)
    (hs : RuleSafe A t) :
    ∃ B1 B2, backward A t = .ok B1 ∧ backward B1 t = .ok B2 ∧
      ∀ j ∈ depsOf A t, gradOf B1 j = ruleInc A t j ∧ gradOf B2 j = 2 * gradOf B1 j := by
  have htopo : buildTopo A t = depsOf A t ++ [t] := buildTopo_depth1 A t hleaf hnd
  have hrev : (depsOf A t ++ [t]).reverse = t :: (depsOf A t).reverse := by simp
  obtain ⟨B1, hfold1, hlen1, hrule1, hdata1, hdeps1, hgt1, hginc1⟩ :=
    depth1_fold A t (writeGrad A t 1) (length_writeGrad _ _ _) ht
      (fun j => ruleOf_writeGrad _ _ _ _) (fun j => dataOf_writeGrad _ _ _ _)
      (fun j => depsOf_writeGrad _ _ _ _) (gradOf_writeGrad_self _ _ _ ht) hleaf hw hs
  have hb1 : backward A t = .ok B1 := by
    show (buildTopo A t).reverse.foldlM (fun B i => applyRule B i) (writeGrad A t 1) = .ok B1
    rw [htopo, hrev]
    exact hfold1
  obtain ⟨B2, hfold2, hlen2, hrule2, hdata2, hdeps2, hgt2, hginc2⟩ :=
    depth1_fold A t B1 hlen1 ht hrule1 hdata1 hdeps1 hgt1 hleaf hw hs
  have hS1 : writeGrad B1 t 1 = B1 := by
    rw [← hgt1]
    exact writeGrad_self_grad B1 t
  have htopoB1 : buildTopo B1 t = depsOf A t ++ [t] := by
    have hleafB : ∀ j ∈ depsOf B1 t, j < t ∧ depsOf B1 j = [] ∧ ruleOf B1 j = .noop := by
      rw [hdeps1 t]
      intro j hj
      obtain ⟨g1, g2, g3⟩ := hleaf j hj
      exact ⟨g1, (hdeps1 j).trans g2, (hrule1 j).trans g3⟩
    have hndB : (depsOf B1 t).Nodup := by rw [hdeps1 t]; exact hnd
    rw [buildTopo_depth1 B1 t hleafB hndB, hdeps1 t]
  have hb2 : backward B1 t = .ok B2 := by
    show (buildTopo B1 t).reverse.foldlM (fun B i => applyRule B i) (writeGrad B1 t 1) = .ok B2
    rw [htopoB1, hrev, hS1]
    exact hfold2
  refine ⟨B1, B2, hb1, hb2, ?_⟩
  intro j hj
  have hjt : j ≠ t := by
    have := (hleaf j hj).1
    omega
  have hjlen : j < A.length := by
    have := (hleaf j hj).1
    omega
  have h1 : gradOf B1 j = ruleInc A t j := by
    rw [hginc1 j hjt, gradOf_writeGrad_ne _ _ _ _ hjt, hg j hjlen, zero_add]
  refine ⟨h1, ?_⟩
  rw [hginc2 j hjt, h1]
  ring

/-! The claims. -/

/-- C1: during a `backward` call every node reachable from the terminal via
dependencies is processed exactly once (the post-order is duplicate-free and
contains exactly the reachable nodes, so each `local_backward` runs once even
across diamond paths), and in the concrete diamond `y = x + x` the leaf
appears once in `y`'s dependency set yet receives both contributions:
`x.grad = 2.0` after `y.backward()`. -/
theorem claim_c1 (A : List Node) (t : Nat) (h : DepLT A) :
    ((buildTopo A t).Nodup ∧ ∀ i, i ∈ buildTopo A t ↔ Reaches A t i) ∧
    (yxGraph = .ok (yxA, 0, 1) ∧ depsOf yxA 1 = [0] ∧
     backward yxA 1 = .ok yxB ∧ gradOf yxB 0 = 2) :=
  ⟨⟨buildTopo_nodup A t, mem_buildTopo_iff A t h⟩,
   yxGraph_eq, rfl, yxBackward_eq, rfl⟩

/-- Witness for C1 at the concrete `y = x + x` arena. -/
theorem claim_c1_witness : (buildTopo yxA 1).Nodup ∧ gradOf yxB 0 = 2 :=
  ⟨(claim_c1 yxA 1 (by decide)).1.1, (claim_c1 yxA 1 (by decide)).2.2.2.2⟩

/-- C2: the literal scenario of `test.py` (`a = 0.3`, `b = -1.7`, `c = 5.2`,
`d = a*b/c`, `e = d**2`, `f = e+1`, then `f.backward()`) produces, to six
decimal places, `d.data = -0.098077`, `e.data = 0.009619`,
`f.data = 1.009619`, `f.grad = 1`, `e.grad = 1`, `d.grad = -0.196154`,
`a.grad = 0.064127`, `b.grad = -0.011317`, `c.grad = -0.003700`. -/
theorem claim_c2 :
    testGraph = .ok (testA, 0, 1, 2, 5, 6, 8) ∧ backward testA 8 = .ok testB ∧
    approx6 (dataOf testB 5) (-98077 / 1000000) ∧
    approx6 (dataOf testB 6) (9619 / 1000000) ∧
    approx6 (dataOf testB 8) (1009619 / 1000000) ∧
    gradOf testB 8 = 1 ∧ gradOf testB 6 = 1 ∧
    approx6 (gradOf testB 5) (-196154 / 1000000) ∧
    approx6 (gradOf testB 0) (64127 / 1000000) ∧
    approx6 (gradOf testB 1) (-11317 / 1000000) ∧
    approx6 (gradOf testB 2) (-3700 / 1000000) := by
  refine ⟨testGraph_eq, testBackward_eq, ?_, ?_, ?_, ?_, ?_, ?_, ?_, ?_, ?_⟩ <;>
    norm_num [approx6, dataOf, gradOf, testB]

/-- C3: every expression built purely from the engine's operators over leaf
values yields a node whose `data` equals the plain scalar value of the same
expression (and it raises exactly when the plain evaluation raises), with
`neg`, `sub` and `div` going through their derived forms `a * (-1)`,
`a + (-b)` and `a * b ** (-1)`. -/
theorem claim_c3 : ∀ (e : Expr) (A : List Node), dataRes (buildE e A) = evalE e :=
  buildE_dataRes

/-- C4 (counterexample): on the depth-two diamond `x; y = x + x; z = y + y`
one `z.backward()` gives `x.grad = 4`, but a second call gives `12`, not
`8` — the claim that a second `backward` doubles every leaf's gradient is
false, because the interior grad `y.grad` is not reset and compounds. -/
theorem claim_c4_counterexample :
    dblGraph = .ok (dblA, 0, 2) ∧ backward dblA 2 = .ok dblB ∧
    backward dblB 2 = .ok dblC ∧
    gradOf dblB 0 = 4 ∧ gradOf dblC 0 = 12 ∧ ¬(gradOf dblC 0 = 2 * gradOf dblB 0) := by
  refine ⟨dblGraph_eq, dblBackward_eq, dblBackward2_eq, rfl, rfl, ?_⟩
  norm_num [gradOf, dblB, dblC]

/-- C4 (amended): calling `backward` twice without resetting grads doubles
every leaf's gradient when every dependency of the terminal is itself a
leaf (a depth-one graph); in deeper graphs the un-reset interior grads
compound and leaf gradients exceed double. -/
theorem claim_c4 (A : List Node) (t : Nat)
    (ht : t < A.length)
    (hleaf : ∀ j ∈ depsOf A t, j < t ∧ depsOf A j = [] ∧ ruleOf A j = .noop)
    (hnd : (depsOf A t).Nodup)
    (hw : ∀ w ∈ ruleWrites (ruleOf A t), w ∈ depsOf A t)
    (hg : ∀ j, j < A.length → gradOf A j = 0)
    (hs : RuleSafe A t) :
    ∃ B1 B2, backward A t = .ok B1 ∧ backward B1 t = .ok B2 ∧
      ∀ j ∈ depsOf A t, gradOf B2 j = 2 * gradOf B1 j := by
  obtain ⟨B1, B2, h1, h2, h3⟩ := backward_depth1_double A t ht hleaf hnd hw hg hs
  exact ⟨B1, B2, h1, h2, fun j hj => (h3 j hj).2⟩

/-- Witness for the amended C4 at the depth-one arena of `y = x + x`. -/
theorem claim_c4_witness :
    ∃ B1 B2, backward yxA 1 = .ok B1 ∧ backward B1 1 = .ok B2 ∧
      ∀ j ∈ depsOf yxA 1, gradOf B2 j = 2 * gradOf B1 j :=
  claim_c4 yxA 1 (by decide) (by decide) (by decide) (by decide) (by decide) True.intro

/-- C5 (counterexample): dividing by a node whose forward value is exactly
zero does raise: `Tensor(1) / Tensor(0)` is a `ZeroDivisionError` from the
reciprocal power, not an IEEE infinity. -/
theorem claim_c5_counterexample :
    Tensor.truediv zeroDivA 0 (.tensor 1) = .error .zeroDivisionError := by
  show (Tensor.pow zeroDivA 1 (.num (-1)) >>= fun p => Tensor.mul p.1 0 (.tensor p.2)) =
    .error .zeroDivisionError
  rw [pow_neg_one, if_pos (show dataOf zeroDivA 1 = 0 from rfl), bind_err]

/-- C5 (amended): dividing by a node whose forward value is exactly zero —
or using such a node as the reciprocal operand of a reversed division —
raises `ZeroDivisionError` when `other ** -1` is computed; no infinity or
NaN is produced. The same happens for a zero scalar divisor. -/
theorem claim_c5 (A : List Node) (i j : Nat) (q : ℚ) (h : dataOf A j = 0) :
    Tensor.truediv A i (.tensor j) = .error .zeroDivisionError ∧
    Tensor.rtruediv A j (.num q) = .error .zeroDivisionError ∧
    Tensor.rtruediv A j (.tensor i) = .error .zeroDivisionError ∧
    Tensor.truediv A i (.num 0) = .error .zeroDivisionError := by
  refine ⟨?_, ?_, ?_, ?_⟩
  · show (Tensor.pow A j (.num (-1)) >>= fun p => Tensor.mul p.1 i (.tensor p.2)) =
      .error .zeroDivisionError
    rw [pow_neg_one, if_pos h, bind_err]
  · show (Tensor.pow A j (.num (-1)) >>= fun p => Tensor.rmul p.1 p.2 (.num q)) =
      .error .zeroDivisionError
    rw [pow_neg_one, if_pos h, bind_err]
  · show (Tensor.pow A j (.num (-1)) >>= fun p => Tensor.mul p.1 i (.tensor p.2)) =
      .error .zeroDivisionError
    rw [pow_neg_one, if_pos h, bind_err]
  · show (if (0 : ℚ) = 0 then (.error .zeroDivisionError : Except Err (List Node × Nat))
      else Tensor.mul A i (.num (0 : ℚ)⁻¹)) = .error .zeroDivisionError
    rw [if_pos rfl]

/-- Witness for the amended C5 at two concrete leaves with divisor `0`. -/
theorem claim_c5_witness :
    dataOf zeroDivA 1 = 0 ∧
    Tensor.rtruediv zeroDivA 1 (.num 7) = .error .zeroDivisionError :=
  ⟨rfl, (claim_c5 zeroDivA 0 1 7 rfl).2.1⟩

/-- C6: every arithmetic operator given an operand that is neither a node
nor a numeric scalar fails with the operand `TypeError` (the spec's
`InvalidOperand`), and `pow` also rejects a node exponent; the error is
raised by the leading `isinstance` check, before any node is created or any
arena change happens (the error result carries no new arena). -/
theorem claim_c6 : ∀ (A : List Node) (x j : Nat) (s : String),
    Tensor.add A x (.invalid s) = .error .typeError ∧
    Tensor.radd A x (.invalid s) = .error .typeError ∧
    Tensor.mul A x (.invalid s) = .error .typeError ∧
    Tensor.rmul A x (.invalid s) = .error .typeError ∧
    Tensor.sub A x (.invalid s) = .error .typeError ∧
    Tensor.rsub A x (.invalid s) = .error .typeError ∧
    Tensor.truediv A x (.invalid s) = .error .typeError ∧
    Tensor.rtruediv A x (.invalid s) = .error .typeError ∧
    Tensor.pow A x (.invalid s) = .error .typeError ∧
    Tensor.pow A x (.tensor j) = .error .typeError :=
  fun _ _ _ _ => ⟨rfl, rfl, rfl, rfl, rfl, rfl, rfl, rfl, rfl, rfl⟩

/-- C7 (counterexample): `grad` is not only mutated via `+=`. After
`y = x + x` and `y.backward()` the leaf has `grad = 2`; a subsequent
`x.backward()` runs no contributing closure at all (the leaf's rule is the
no-op), yet its grad is overwritten to `1.0` by the seed — a reset, not an
accumulation. -/
theorem claim_c7_counterexample :
    backward yxA 1 = .ok yxB ∧ gradOf yxB 0 = 2 ∧
    backward yxB 0 = .ok yxC ∧ gradOf yxC 0 = 1 ∧
    ¬(gradOf yxC 0 = gradOf yxB 0) := by
  refine ⟨yxBackward_eq, rfl, yxBackward2_eq, rfl, ?_⟩
  norm_num [gradOf, yxB, yxC]

/-- C7 (amended): `grad` is mutated only by the backward engine — operator
calls leave every existing node untouched — and within a `backward` call
the terminal's grad is overwritten to `1.0` by the seed while all other
mutations are `+=` contributions into rule operands, which lie strictly
below the terminal: `data` never changes and every node above the terminal
keeps its grad. -/
theorem claim_c7 (A : List Node) (t : Nat)
    (hA : DepLT A) (hr : RulesWithinDeps A) (ht : t < A.length) (B : List Node)
    (hb : backward A t = .ok B) :
    (∀ j, dataOf B j = dataOf A j) ∧ gradOf B t = 1 ∧
    (∀ j, t < j → gradOf B j = gradOf A j) ∧
    (∀ (x : Nat) (o : PyOperand),
      opFrame A (Tensor.add A x o) ∧ opFrame A (Tensor.radd A x o) ∧
      opFrame A (Tensor.mul A x o) ∧ opFrame A (Tensor.rmul A x o) ∧
      opFrame A (Tensor.neg A x) ∧ opFrame A (Tensor.sub A x o) ∧
      opFrame A (Tensor.rsub A x o) ∧ opFrame A (Tensor.pow A x o) ∧
      opFrame A (Tensor.truediv A x o) ∧ opFrame A (Tensor.rtruediv A x o)) := by
  obtain ⟨_, hdata, hgt, hup⟩ := backward_effects A t B hA hr ht hb
  exact ⟨hdata, hgt, hup, fun x o =>
    ⟨opFrame_add A x o, opFrame_radd A x o, opFrame_mul A x o, opFrame_rmul A x o,
     opFrame_neg A x, opFrame_sub A x o, opFrame_rsub A x o, opFrame_pow A x o,
     opFrame_truediv A x o, opFrame_rtruediv A x o⟩⟩

/-- Witness for the amended C7 at the `y = x + x` arena. -/
theorem claim_c7_witness :
    (∀ j, dataOf yxB j = dataOf yxA j) ∧ gradOf yxB 1 = 1 ∧
    (∀ j, 1 < j → gradOf yxB j = gradOf yxA j) ∧
    (∀ (x : Nat) (o : PyOperand),
      opFrame yxA (Tensor.add yxA x o) ∧ opFrame yxA (Tensor.radd yxA x o) ∧
      opFrame yxA (Tensor.mul yxA x o) ∧ opFrame yxA (Tensor.rmul yxA x o) ∧
      opFrame yxA (Tensor.neg yxA x) ∧ opFrame yxA (Tensor.sub yxA x o) ∧
      opFrame yxA (Tensor.rsub yxA x o) ∧ opFrame yxA (Tensor.pow yxA x o) ∧
      opFrame yxA (Tensor.truediv yxA x o) ∧ opFrame yxA (Tensor.rtruediv yxA x o)) :=
  claim_c7 yxA 1 (by decide) (by decide) (by decide) yxB yxBackward_eq

/-- C8: every operator call leaves the `grad` and `data` (indeed every
field) of all existing nodes unchanged; its only effect is to append fresh
node(s) and return the index of the new output node. -/
theorem claim_c8 : ∀ (A : List Node) (x : Nat) (o : PyOperand),
    opFrame A (Tensor.add A x o) ∧ opFrame A (Tensor.radd A x o) ∧
    opFrame A (Tensor.mul A x o) ∧ opFrame A (Tensor.rmul A x o) ∧
    opFrame A (Tensor.neg A x) ∧ opFrame A (Tensor.sub A x o) ∧
    opFrame A (Tensor.rsub A x o) ∧ opFrame A (Tensor.pow A x o) ∧
    opFrame A (Tensor.truediv A x o) ∧ opFrame A (Tensor.rtruediv A x o) :=
  fun A x o =>
    ⟨opFrame_add A x o, opFrame_radd A x o, opFrame_mul A x o, opFrame_rmul A x o,
     opFrame_neg A x, opFrame_sub A x o, opFrame_rsub A x o, opFrame_pow A x o,
     opFrame_truediv A x o, opFrame_rtruediv A x o⟩

/-- C9: the reversed-operand forms agree with the node-first forms:
`k + x` has the data of `x + k`, `k * x` that of `x * k`, `k - x` that of
`(-x) + k`, and `k / x` that of `k * x ** (-1)` (the reversed forms even
run the identical computation, so errors agree too). -/
theorem claim_c9 : ∀ (A : List Node) (x : Nat) (k : ℚ),
    dataRes (Tensor.radd A x (.num k)) = dataRes (Tensor.add A x (.num k)) ∧
    dataRes (Tensor.rmul A x (.num k)) = dataRes (Tensor.mul A x (.num k)) ∧
    dataRes (Tensor.rsub A x (.num k)) = dataRes (negThenAdd A x k) ∧
    dataRes (Tensor.rtruediv A x (.num k)) = dataRes (scalarMulPow A x k) :=
  fun _ _ _ => ⟨rfl, rfl, rfl, rfl⟩

/-- C10: the constructor validates nothing — for any `data` value of any
type it succeeds and yields `grad = 0.0`, the deduplicated dependency set,
and the no-op backward rule; a non-numeric `data` (here a string) is only
rejected later, when the first operator that consumes the node computes
`self.data + other.data`. -/
theorem claim_c10 :
    (∀ (α : Type) (d : α) (ch : List Nat) (op : String),
      (Tensor.initRaw d ch op).data = d ∧ (Tensor.initRaw d ch op).grad = 0 ∧
      (Tensor.initRaw d ch op).rule = .noop ∧ (Tensor.initRaw d ch op).deps = ch.dedup) ∧
    (Tensor.initRaw (PyData.str "oops")).data = PyData.str "oops" ∧
    (Tensor.initRaw (PyData.str "oops")).grad = 0 ∧
    Tensor.addPD [Tensor.initRaw (PyData.str "oops"), Tensor.initRaw (PyData.num 1)] 0 1 =
      .error .typeError :=
  ⟨fun _ _ _ _ => ⟨rfl, rfl, rfl, rfl⟩, rfl, rfl, rfl⟩
